import Mathlib

/-!
Verification development for the `mcp_remote_ssh` security-mediated SSH
gateway.  The definitions below are shallow embeddings of the Python source
under `src/mcp_remote_ssh/`:

* `config.py`      — `PermissibilityLevel`, `SecurityConfig` and its
  level-selected command lists;
* `security.py`    — `SecurityManager.validate_command` (including the
  attribute lookups it performs on the configuration object) and
  `SecurityManager.redact_secrets` with its seven secret patterns;
* `session.py`     — the `_read_command_output` polling loop,
  `_should_stop_reading`, `_create_command_result`, `_clean_output` and
  `_limit_output_lines`;
* `session_manager.py` — `SessionManager.create_session`,
  `_remove_oldest_session`, `remove_session`;
* `interactive_password_service.py` — the pending-request /
  future-resolution state of `InteractivePasswordService`.

Python strings are modelled as `String`/`List Char`; regular-expression
searches are modelled by dedicated scanner functions whose semantics follow
Python's `re` on exactly the pattern they embed (leftmost match, greedy
counted classes — none of the embedded patterns requires backtracking
because in each of them the character following a greedy class is outside
the class).  Machine floats (`time.time()`) are modelled as `Nat` ticks of
10 ms, the polling period of the read loop.
-/

set_option maxRecDepth 10000

/-- `config.py:14` — the three permissibility levels. -/
inductive PermissibilityLevel where
  | low
  | medium
  | high
deriving DecidableEq, Repr

/-- `config.py:28` (`SecurityConfig`) — the security configuration dataclass.
The fields below are exactly the fields the dataclass defines; the default
values are the `default_factory` lists of the source, transcribed verbatim
(including duplicated entries such as `pwd`, `htop`, `nohup`, `fdisk`,
`nano`, `vim`, `vi`).  Note that the dataclass defines *no* field named
`denied_commands` nor `allowed_commands`. -/
structure SecurityConfig where
  permissibility_level : PermissibilityLevel := .medium
  low_permissibility_commands : List String := [
    "ls", "cat", "head", "tail", "grep", "find", "du", "df", "file", "stat",
    "uname", "whoami", "id", "pwd", "date", "uptime", "free", "lscpu",
    "ps", "top", "htop", "pgrep", "pidof",
    "ping", "curl", "wget", "netstat", "ss", "dig", "nslookup",
    "ip", "route", "arp", "ifconfig",
    "awk", "sed", "sort", "uniq", "wc", "cut", "tr", "echo", "printf",
    "which", "whereis", "type", "hash", "env", "export", "unset",
    "history", "cd", "pwd"]
  medium_permissibility_commands : List String := [
    "nano", "vim", "vi", "tee", "cp", "mv", "rm", "rmdir", "mkdir", "touch",
    "chmod", "chown", "ln", "chattr", "lsattr",
    "kill", "killall", "pkill", "nohup", "systemctl", "journalctl", "service",
    "iwconfig", "tcpdump", "wireshark",
    "kubectl", "k9s", "helm", "k3s", "k3s-agent", "crictl", "ctr",
    "tar", "gzip", "gunzip", "zip", "unzip", "bzip2", "xz",
    "git",
    "docker", "docker-compose", "podman", "buildah",
    "ssh", "scp", "rsync", "tailscale", "tailscaled", "cloudflared",
    "apt", "apt-get", "dpkg", "snap", "yum", "dnf", "pacman",
    "strace", "ltrace", "gdb", "valgrind", "perf", "iotop", "iostat",
    "lshw", "lspci", "lsusb", "lsmod", "dmesg", "lspcmcia",
    "useradd", "usermod", "userdel", "groupadd", "groupmod", "groupdel",
    "passwd", "chpasswd", "newusers", "vipw", "vigr",
    "openssl", "certbot", "letsencrypt", "ufw", "iptables", "firewall-cmd",
    "ssh-keygen", "ssh-add", "ssh-copy-id",
    "htop", "iotop", "iftop", "nethogs", "nload", "bmon", "nmtui",
    "mount", "umount", "fdisk", "parted", "mkfs", "fsck", "tune2fs",
    "bash", "sh", "zsh", "fish", "screen", "tmux", "nohup",
    "nano", "vim", "vi", "emacs", "joe", "ed", "ex", "view",
    "nc", "netcat", "telnet", "nmap", "traceroute", "mtr", "whois",
    "sync", "swapon", "swapoff", "mkswap", "blkid", "lsblk", "fdisk",
    "logrotate", "logwatch", "logcheck", "fail2ban", "rsyslog",
    "timedatectl", "ntpdate", "chrony", "systemd-timesyncd",
    "upower", "tlp", "powertop", "cpupower", "cpufreq-set",
    "alias", "unalias", "set", "readonly", "declare", "local", "return", "exit",
    "source", "exec", "eval", "trap", "wait", "jobs", "fg", "bg",
    "fc", "pushd", "popd", "dirs"]
  high_permissibility_commands : List String := [
    "sudo", "sudoedit",
    "reboot", "shutdown", "halt", "poweroff", "init", "systemctl",
    "modprobe", "dmesg", "lspcmcia"]
  always_denied_commands : List String := [
    "rm -rf /",
    "dd if=/dev/zero of=/dev/sda",
    "mkfs.ext4 /dev/sda",
    "fdisk /dev/sda",
    "mkfs.ext4 /dev/sdX",
    "fdisk /dev/sdX",
    "dd if=/dev/zero of=/dev/sdX",
    "rm -rf /sdX"]
  max_output_bytes : Nat := 10 * 1024 * 1024
  max_output_lines : Nat := 10000
  command_timeout_seconds : Nat := 300
  rate_limit_per_minute : Nat := 500
  max_sessions : Nat := 20
deriving Repr

/-- `config.py:202` (`SecurityConfig.get_allowed_commands`) — allowed
commands for the current permissibility level.  (The source has a trailing
`return self.medium_permissibility_commands` fallback that is unreachable
for the three-valued enum.) -/
def SecurityConfig.get_allowed_commands (c : SecurityConfig) : List String :=
  match c.permissibility_level with
  | .low => c.low_permissibility_commands
  | .medium => c.low_permissibility_commands ++ c.medium_permissibility_commands
  | .high => c.low_permissibility_commands ++ c.medium_permissibility_commands
      ++ c.high_permissibility_commands

/-- The configuration with a given level and all other fields at their
dataclass defaults (`config.py:290` builds the global `Config()` this way,
with the level drawn from the environment and defaulting to `medium`). -/
def securityConfigAt (l : PermissibilityLevel) : SecurityConfig :=
  { permissibility_level := l }

/-! ## Character and scanning helpers -/

/-- The single-quote character (ASCII 39). -/
def squoteChar : Char := Char.ofNat 39

/-- The double-quote character. -/
def dquoteChar : Char := '"'

/-- The backslash character. -/
def bslashChar : Char := '\\'

/-- The backtick character (ASCII 96). -/
def backquoteChar : Char := Char.ofNat 96

/-- Whitespace for Python `str.strip()` (default): space, tab, newline,
carriage return, vertical tab, form feed (ASCII range; the inputs handled
by the gateway are ASCII command lines). -/
def isPyWs (c : Char) : Bool :=
  c = ' ' || c = '\t' || c = '\n' || c = '\r' || c = Char.ofNat 11 || c = Char.ofNat 12

/-- Python `str.strip()` with no argument. -/
def pyStrip (s : String) : String :=
  (((s.toList.dropWhile isPyWs).reverse.dropWhile isPyWs).reverse).asString

/-- `s.strip().startswith(pre)` as used by the source. -/
def strippedStartsWith (s pre : String) : Bool :=
  pre.toList.isPrefixOf (pyStrip s).toList

/-- `re` class `\s` (ASCII range). -/
def isRegexWs (c : Char) : Bool := isPyWs c

/-- `re` class `\w` (ASCII range): letters, digits, underscore. -/
def isWordChar (c : Char) : Bool :=
  ('a' ≤ c && c ≤ 'z') || ('A' ≤ c && c ≤ 'Z') || ('0' ≤ c && c ≤ '9') || c = '_'

/-- Length of the longest prefix of `s` whose characters all satisfy `p`
(the greedy span of a character class). -/
def countLeading (p : Char → Bool) : List Char → Nat
  | [] => 0
  | c :: cs => if p c then countLeading p cs + 1 else 0

/-- Python `str.split` on the newline character: `splitLines []` is
`[[]]` (Python `"".split(chr(10)) == [""]`). -/
def splitLines : List Char → List (List Char)
  | [] => [[]]
  | c :: cs =>
    match splitLines cs with
    | [] => [[]]
    | l :: ls => if c = '\n' then [] :: l :: ls else (c :: l) :: ls

/-- Join lines with the newline character (Python `chr(10).join`). -/
def joinLines : List (List Char) → List Char
  | [] => []
  | [l] => l
  | l :: ls => l ++ '\n' :: joinLines ls

/-- Python `str.strip()` over a character list. -/
def stripChars (l : List Char) : List Char :=
  ((l.dropWhile isPyWs).reverse.dropWhile isPyWs).reverse

/-- Substring containment over character lists (scans every suffix). -/
def containsSub (pat : List Char) : List Char → Bool
  | [] => pat.isEmpty
  | c :: cs => pat.isPrefixOf (c :: cs) || containsSub pat cs

/-- `re.search` of a *literal* (escaped) pattern: substring containment. -/
def strSearch (pat : String) (s : String) : Bool :=
  containsSub pat.toList s.toList

/-! ## `shlex.split` (POSIX mode, `whitespace_split=True`)

`shlex.split` tokenizes on whitespace with POSIX quoting: single quotes are
literal runs, double quotes admit backslash escapes of `"` and `\`,
a backslash outside quotes escapes any single character, an unterminated
quote raises `ValueError("No closing quotation")` and a trailing backslash
raises `ValueError("No escaped character")`.  An empty token is emitted
only when it was produced by quotes. -/

/-- Lexer modes of the `shlex` state machine: between tokens, inside a
word, inside single/double quotes, and after a backslash (from a word or
from double quotes). -/
inductive SlxMode where
  | ws
  | word
  | squote
  | dquote
  | escWord
  | escDquote

/-- shlex `whitespace` = space, tab, carriage return, newline. -/
def isShlexWs (c : Char) : Bool :=
  c = ' ' || c = '\t' || c = '\r' || c = '\n'

/-- Emit a finished token: POSIX mode drops a token that is empty and was
never quoted. -/
def shlexEmit (tok : List Char) (quoted : Bool) (acc : List String) : List String :=
  if tok.isEmpty && !quoted then acc else acc ++ [tok.asString]

/-- The `shlex` token reader; processes one character per step. -/
def shlexCore : SlxMode → List Char → List Char → Bool → List String →
    Except String (List String)
  | .ws, [], _tok, _q, acc => .ok acc
  | .ws, c :: cs, tok, q, acc =>
    if isShlexWs c then shlexCore .ws cs tok q acc
    else if c = bslashChar then shlexCore .escWord cs tok q acc
    else if c = squoteChar then shlexCore .squote cs tok true acc
    else if c = dquoteChar then shlexCore .dquote cs tok true acc
    else shlexCore .word cs (tok ++ [c]) q acc
  | .word, [], tok, q, acc => .ok (shlexEmit tok q acc)
  | .word, c :: cs, tok, q, acc =>
    if isShlexWs c then shlexCore .ws cs [] false (shlexEmit tok q acc)
    else if c = bslashChar then shlexCore .escWord cs tok q acc
    else if c = squoteChar then shlexCore .squote cs tok true acc
    else if c = dquoteChar then shlexCore .dquote cs tok true acc
    else shlexCore .word cs (tok ++ [c]) q acc
  | .squote, [], _tok, _q, _acc => .error "No closing quotation"
  | .squote, c :: cs, tok, q, acc =>
    if c = squoteChar then shlexCore .word cs tok q acc
    else shlexCore .squote cs (tok ++ [c]) q acc
  | .dquote, [], _tok, _q, _acc => .error "No closing quotation"
  | .dquote, c :: cs, tok, q, acc =>
    if c = dquoteChar then shlexCore .word cs tok q acc
    else if c = bslashChar then shlexCore .escDquote cs tok q acc
    else shlexCore .dquote cs (tok ++ [c]) q acc
  | .escWord, [], _tok, _q, _acc => .error "No escaped character"
  | .escWord, c :: cs, tok, q, acc => shlexCore .word cs (tok ++ [c]) q acc
  | .escDquote, [], _tok, _q, _acc => .error "No escaped character"
  | .escDquote, c :: cs, tok, q, acc =>
    if c = dquoteChar || c = bslashChar then shlexCore .dquote cs (tok ++ [c]) q acc
    else shlexCore .dquote cs (tok ++ [bslashChar, c]) q acc

/-- `shlex.split(s)` (POSIX, whitespace-split). -/
def shlexSplit (s : String) : Except String (List String) :=
  shlexCore .ws s.toList [] false []

/-! ## Level-selected dangerous patterns (`config.py:163-189`)

Each regex of the configuration is embedded as a dedicated matcher.  The
patterns are sequences of literals, `\s+` spans and `[a-z]` classes; in
each of them the element following a greedy `\s+` starts with a
non-whitespace character, so the greedy scan below needs no backtracking
to agree with Python `re`. -/

/-- One element of an embedded regex: a literal, `\s+`, or `[a-z]`. -/
inductive RItem where
  | lit (s : String)
  | wsPlus
  | lowerAlpha

/-- Match a sequence of `RItem`s at the head of the input, returning the
remaining input on success. -/
def rItems : List RItem → List Char → Option (List Char)
  | [], s => some s
  | .lit l :: rest, s =>
    if l.toList.isPrefixOf s then rItems rest (s.drop l.toList.length) else none
  | .wsPlus :: rest, s =>
    let n := countLeading isRegexWs s
    if n = 0 then none else rItems rest (s.drop n)
  | .lowerAlpha :: _rest, [] => none
  | .lowerAlpha :: rest, c :: cs =>
    if 'a' ≤ c && c ≤ 'z' then rItems rest cs else none

/-- `re.search`: does the item sequence match at some position? -/
def rSearchAux (pat : List RItem) : List Char → Bool
  | [] => (rItems pat []).isSome
  | c :: cs => (rItems pat (c :: cs)).isSome || rSearchAux pat cs

/-- `re.search` for an `RItem` sequence over a string. -/
def rSearch (pat : List RItem) (s : String) : Bool :=
  rSearchAux pat s.toList

/-- Python `$` (no MULTILINE): at end of text or just before a final
newline. -/
def rAnchoredAt (pat : List RItem) (s : List Char) : Bool :=
  match rItems pat s with
  | some [] => true
  | some [c] => c = '\n'
  | _ => false

/-- `re.search` for an `RItem` sequence anchored by a trailing `$`. -/
def rSearchAnchoredAux (pat : List RItem) : List Char → Bool
  | [] => rAnchoredAt pat []
  | c :: cs => rAnchoredAt pat (c :: cs) || rSearchAnchoredAux pat cs

/-- Anchored `re.search` over a string. -/
def rSearchAnchored (pat : List RItem) (s : String) : Bool :=
  rSearchAnchoredAux pat s.toList

/-- `rm\s+-rf\s+/` -/
def rm_rf_root_items : List RItem := [.lit "rm", .wsPlus, .lit "-rf", .wsPlus, .lit "/"]

/-- `dd\s+if=/dev/zero\s+of=/dev/sd[a-z]` -/
def dd_zero_items : List RItem :=
  [.lit "dd", .wsPlus, .lit "if=/dev/zero", .wsPlus, .lit "of=/dev/sd", .lowerAlpha]

/-- `mkfs\.ext4\s+/dev/sd[a-z]` -/
def mkfs_ext4_items : List RItem := [.lit "mkfs.ext4", .wsPlus, .lit "/dev/sd", .lowerAlpha]

/-- `fdisk\s+/dev/sd[a-z]` -/
def fdisk_sd_items : List RItem := [.lit "fdisk", .wsPlus, .lit "/dev/sd", .lowerAlpha]

/-- Search for the command-chaining metacharacter alternation of
`low_permissibility_patterns`; an alternation of literals matches somewhere
iff one of the literals occurs as a substring. -/
def chaining_meta_search (s : String) : Bool :=
  (["&&", "||", ";", "|", "`", "$(", ">", ">>", "<", "*", "?", "[", "]"].map strSearch).any
    (fun f => f s)

/-- `\bsudo\b` scanner: `sudo` with non-word (or boundary) context on both
sides; scans with the word-character status of the previous character. -/
def sudoBoundaryAux (prevIsWord : Bool) : List Char → Bool
  | [] => false
  | c :: cs =>
    (!prevIsWord && ("sudo".toList.isPrefixOf (c :: cs)) &&
      (match (c :: cs).drop 4 with
       | [] => true
       | d :: _ => !isWordChar d)) || sudoBoundaryAux (isWordChar c) cs

/-- `re.search` for `\bsudo\b`. -/
def sudo_word_search (s : String) : Bool := sudoBoundaryAux false s.toList

/-- `config.py:163` — `low_permissibility_patterns` as matchers. -/
def low_permissibility_patterns : List (String → Bool) :=
  [chaining_meta_search, sudo_word_search,
   rSearch rm_rf_root_items, rSearch dd_zero_items,
   rSearch mkfs_ext4_items, rSearch fdisk_sd_items]

/-- `config.py:175` — `medium_permissibility_patterns` as matchers (only
the four filesystem-destruction patterns). -/
def medium_permissibility_patterns : List (String → Bool) :=
  [rSearch rm_rf_root_items, rSearch dd_zero_items,
   rSearch mkfs_ext4_items, rSearch fdisk_sd_items]

/-- `config.py:183` — `high_permissibility_patterns` as matchers (the same
four patterns anchored with `$`). -/
def high_permissibility_patterns : List (String → Bool) :=
  [rSearchAnchored rm_rf_root_items, rSearchAnchored dd_zero_items,
   rSearchAnchored mkfs_ext4_items, rSearchAnchored fdisk_sd_items]

/-- `config.py:212` (`SecurityConfig.get_denied_patterns`) — denied
patterns for the current level.  The source stores the three lists in
dataclass fields that no code path mutates; the embedding binds them as
the constants above. -/
def SecurityConfig.get_denied_patterns (c : SecurityConfig) : List (String → Bool) :=
  match c.permissibility_level with
  | .low => low_permissibility_patterns
  | .medium => medium_permissibility_patterns
  | .high => high_permissibility_patterns

/-! ## `SecurityManager.validate_command` (`security.py:72-116`) -/

/-- A raised Python exception (type and attribute name for
`AttributeError`). -/
inductive PyError where
  | attributeError (typeName attrName : String)
deriving DecidableEq, Repr

/-- The reasons `validate_command` can report, mirroring the reason strings
of the source (`security.py`), with the interpolated command or pattern
carried structurally. -/
inductive ValidationReason where
  | emptyCommand
  | invalidCommandSyntax
  | commandParsingError
  | explicitlyDenied (cmdName : String)
  | notInAllowedList (cmdName : String)
  | dangerousPatternDetected (pat : String)
  | commandAllowed
deriving DecidableEq, Repr

/-- `security.py:12` (`CommandValidationResult`). -/
structure CommandValidationResult where
  allowed : Bool
  reason : ValidationReason
  sanitized_cmd : Option String := none
deriving DecidableEq, Repr

/-- Python attribute lookup of a `List[str]`-valued attribute on a
`SecurityConfig` instance: exactly the string-list fields the dataclass
defines resolve; any other name raises `AttributeError` (modelled by
`none`). -/
def SecurityConfig.getStrListAttr (c : SecurityConfig) (name : String) :
    Option (List String) :=
  if name = "low_permissibility_commands" then some c.low_permissibility_commands
  else if name = "medium_permissibility_commands" then some c.medium_permissibility_commands
  else if name = "high_permissibility_commands" then some c.high_permissibility_commands
  else if name = "always_denied_commands" then some c.always_denied_commands
  else none

/-- `security.py:100-104` — the dangerous-pattern list hardcoded inside
`validate_command`.  Every regex in the source list is a backslash-escaped
literal, so each is embedded as the literal it matches;
`re.search` of a literal is substring containment. -/
def hardcoded_dangerous_patterns : List String :=
  ["&&", "||", ";", "|", "`", "$(", ">", ">>", "<", "*", "?", "[", "]"]

/-- `security.py:130` (`_sanitize_command`): strip, drop NUL bytes,
truncate to 1000 characters. -/
def sanitize_command (command : String) : String :=
  ((((pyStrip command).toList.filter (fun c => !(c = Char.ofNat 0))).take 1000)).asString

/-- `security.py:72` (`SecurityManager.validate_command`).  The embedding
follows the source line by line.  `self.config.denied_commands`
(`security.py:86`) and `self.config.allowed_commands` (`security.py:90`)
are attribute lookups on the `SecurityConfig` dataclass, which defines
neither attribute, so the lookup raises `AttributeError`; only `ValueError`
from `shlex.split` is caught (`security.py:115`).  The argument-pattern
tightening of `security.py:93-97` is not modelled: it sits strictly after
the `denied_commands` lookup, so no execution reaches it (and no claim
refers to it). -/
def validate_command (cfg : SecurityConfig) (command : String) :
    Except PyError CommandValidationResult :=
  if pyStrip command = "" then .ok ⟨false, .emptyCommand, none⟩
  else
    match shlexSplit (pyStrip command) with
    | .error _ => .ok ⟨false, .commandParsingError, none⟩
    | .ok [] => .ok ⟨false, .invalidCommandSyntax, none⟩
    | .ok (cmd_name :: _rest) =>
      match cfg.getStrListAttr "denied_commands" with
      | none => .error (.attributeError "SecurityConfig" "denied_commands")
      | some denied =>
        if cmd_name ∈ denied then .ok ⟨false, .explicitlyDenied cmd_name, none⟩
        else
          match cfg.getStrListAttr "allowed_commands" with
          | none => .error (.attributeError "SecurityConfig" "allowed_commands")
          | some allowed =>
            if cmd_name ∉ allowed then .ok ⟨false, .notInAllowedList cmd_name, none⟩
            else
              match hardcoded_dangerous_patterns.find? (fun p => strSearch p command) with
              | some p => .ok ⟨false, .dangerousPatternDetected p, none⟩
              | none => .ok ⟨true, .commandAllowed, some (sanitize_command command)⟩

/-! ## Secret redaction (`security.py:26-34`, `security.py:144-153`)

`redact_secrets` applies seven compiled patterns in order with `re.sub`.
Each pattern is embedded as a match-length function `List Char → Option
Nat` giving the length of the match starting at the head of the input (or
`none`), mirroring Python `re` semantics on that pattern: leftmost
scanning is implemented by the generic `subRun`, greedy counted classes by
`countLeading`.  None of the seven patterns requires backtracking: in each
of them the element that follows a greedy class span cannot begin with a
character of that class. -/

/-- ASCII lowercasing (the effect of `re.IGNORECASE` on these ASCII
patterns). -/
def toLowerAscii (c : Char) : Char :=
  if 'A' ≤ c && c ≤ 'Z' then Char.ofNat (c.toNat + 32) else c

/-- Case-insensitive literal prefix test; the literal is given in
lowercase. -/
def litCIPrefix : List Char → List Char → Bool
  | [], _ => true
  | _ :: _, [] => false
  | l :: ls, c :: cs => (toLowerAscii c = l) && litCIPrefix ls cs

/-- ASCII letters and digits (`[A-Za-z0-9]`, and `[0-9A-Z]` under
`re.IGNORECASE`). -/
def isAlnumAscii (c : Char) : Bool :=
  ('a' ≤ c && c ≤ 'z') || ('A' ≤ c && c ≤ 'Z') || ('0' ≤ c && c ≤ '9')

/-- `[A-Za-z0-9+/]` — the base64 class. -/
def classB64 (c : Char) : Bool := isAlnumAscii c || c = '+' || c = '/'

/-- `[A-Za-z0-9_\-]` — the GitLab token class. -/
def classGitlab (c : Char) : Bool := isAlnumAscii c || c = '_' || c = '-'

/-- `[A-Za-z0-9\-]` — the Slack token class. -/
def classSlack (c : Char) : Bool := isAlnumAscii c || c = '-'

/-- `[A-Z ]` — the PEM header class. -/
def classCapsSpace (c : Char) : Bool := ('A' ≤ c && c ≤ 'Z') || c = ' '

/-- `[A-Za-z0-9+/]{40,}={0,2}` (base64-like tokens): a greedy class span
of length at least 40, then up to two `=`. -/
def mlenB64 (s : List Char) : Option Nat :=
  let r := countLeading classB64 s
  if 40 ≤ r then some (r + min (countLeading (fun c => c = '=') (s.drop r)) 2) else none

/-- `sk-[A-Za-z0-9]{48}` with IGNORECASE (OpenAI-style keys). -/
def mlenSk (s : List Char) : Option Nat :=
  if litCIPrefix "sk-".toList s && 48 ≤ countLeading isAlnumAscii (s.drop 3) then
    some 51
  else none

/-- `ghp_[A-Za-z0-9]{36}` with IGNORECASE (GitHub tokens). -/
def mlenGhp (s : List Char) : Option Nat :=
  if litCIPrefix "ghp_".toList s && 36 ≤ countLeading isAlnumAscii (s.drop 4) then
    some 40
  else none

/-- `glpat-[A-Za-z0-9_\-]{20}` with IGNORECASE (GitLab tokens). -/
def mlenGlpat (s : List Char) : Option Nat :=
  if litCIPrefix "glpat-".toList s && 20 ≤ countLeading classGitlab (s.drop 6) then
    some 26
  else none

/-- `xox[baprs]-[A-Za-z0-9\-]{10,48}` with IGNORECASE (Slack tokens):
greedy bounded span, at least 10 and at most 48 class characters. -/
def mlenXox (s : List Char) : Option Nat :=
  if litCIPrefix "xox".toList s &&
      (match s.drop 3 with
       | c :: d :: _ =>
         (toLowerAscii c = 'b' || toLowerAscii c = 'a' || toLowerAscii c = 'p' ||
          toLowerAscii c = 'r' || toLowerAscii c = 's') && d = '-'
       | _ => false) then
    let r := countLeading classSlack (s.drop 5)
    if 10 ≤ r then some (5 + min r 48) else none
  else none

/-- `AKIA[0-9A-Z]{16}` with IGNORECASE (AWS access keys). -/
def mlenAkia (s : List Char) : Option Nat :=
  if litCIPrefix "akia".toList s && 16 ≤ countLeading isAlnumAscii (s.drop 4) then
    some 20
  else none

/-- The `-----BEGIN [A-Z ]+-----` header of the PEM pattern: returns the
header length. -/
def beginHdrLen (s : List Char) : Option Nat :=
  if "-----BEGIN ".toList.isPrefixOf s then
    let r := countLeading classCapsSpace (s.drop 11)
    if 1 ≤ r && "-----".toList.isPrefixOf (s.drop (11 + r)) then some (11 + r + 5)
    else none
  else none

/-- The `-----END [A-Z ]+-----` block of the PEM pattern: returns the
block length when it matches at the head. -/
def endBlockLen (s : List Char) : Option Nat :=
  if "-----END ".toList.isPrefixOf s then
    let r := countLeading classCapsSpace (s.drop 9)
    if 1 ≤ r && "-----".toList.isPrefixOf (s.drop (9 + r)) then some (9 + r + 5)
    else none
  else none

/-- Position and length of the first (lazy `.*?`) occurrence of the END
block. -/
def findEnd : List Char → Option (Nat × Nat)
  | [] => none
  | c :: cs =>
    match endBlockLen (c :: cs) with
    | some e => some (0, e)
    | none => (findEnd cs).map (fun pe => (pe.1 + 1, pe.2))

/-- `-----BEGIN [A-Z ]+-----.*?-----END [A-Z ]+-----` with DOTALL (PEM
private keys): header, then the earliest END block (`.*?` is lazy and
under DOTALL spans any characters). -/
def mlenPem (s : List Char) : Option Nat :=
  match beginHdrLen s with
  | none => none
  | some h =>
    match findEnd (s.drop h) with
    | some (q, e) => some (h + q + e)
    | none => none

/-- `re.sub` scan for a pattern embedded as a match-length function,
driven by a fuel that bounds the input length (every step consumes at
least the head character, so the initial fuel `s.length` never runs out):
scan left to right; at a match of length `n`, emit the replacement and
resume after the match (`drop (n - 1)` after consuming the head is
`drop n` of the input). -/
def subRunAux (ml : List Char → Option Nat) (rep : List Char) : Nat → List Char → List Char
  | _, [] => []
  | 0, s => s
  | fuel + 1, c :: cs =>
    match ml (c :: cs) with
    | some n => rep ++ subRunAux ml rep fuel (cs.drop (n - 1))
    | none => c :: subRunAux ml rep fuel cs

/-- `re.sub` for a pattern embedded as a match-length function. -/
def subRun (ml : List Char → Option Nat) (rep : List Char) (s : List Char) : List Char :=
  subRunAux ml rep s.length s

/-- `security.py:26` (`secret_patterns`) — the ordered pattern table:
matcher and replacement for each of the seven secret shapes. -/
def secret_patterns : List ((List Char → Option Nat) × List Char) :=
  [(mlenB64, "[REDACTED_TOKEN]".toList),
   (mlenSk, "[REDACTED_API_KEY]".toList),
   (mlenGhp, "[REDACTED_GITHUB_TOKEN]".toList),
   (mlenGlpat, "[REDACTED_GITLAB_TOKEN]".toList),
   (mlenXox, "[REDACTED_SLACK_TOKEN]".toList),
   (mlenAkia, "[REDACTED_AWS_KEY]".toList),
   (mlenPem, "[REDACTED_PRIVATE_KEY]".toList)]

/-- `security.py:144` (`redact_secrets`) applied to a character list:
fold the pattern table in order, substituting each pattern. -/
def redactList (s : List Char) : List Char :=
  secret_patterns.foldl (fun t pr => subRun pr.1 pr.2 t) s

/-- `security.py:144` (`SecurityManager.redact_secrets`): the empty text
is returned unchanged; otherwise every pattern of the table is substituted
in order. -/
def redact_secrets (text : String) : String :=
  if text = "" then text else (redactList text.toList).asString

/-! ## The read loop of `SSHSession` (`session.py:324-643`)

`_read_command_output` polls the channel every 10 ms until a termination
condition fires; `_create_command_result` post-processes the collected
output.  Time is modelled in ticks of 10 ms (the `asyncio.sleep(0.01)`
period): every call to `time.time()` within one loop iteration returns the
iteration's tick, and the tick advances by one per iteration; the loop
entry time and `context['start_time']` are tick 0.  The channel is
modelled by an environment `Nat → Option String × Option String` giving
the stdout/stderr chunk available at each tick (`recv`/`recv_stderr` of
up to 4096 bytes).

The embedding covers execution contexts whose `password_manager` is `None`
(no sudo password configured anywhere and interactive prompting disabled,
cf. `_create_execution_context`): in every branch of the source that tests
`context['password_manager']`, the embedding takes the `None` arm.
`_handle_password_prompts` then runs
`_check_for_password_prompt_without_manager`.

`last_output_time` is threaded through the loop exactly as in the source:
the source's only assignments to it inside `_process_stdout_chunk` and
`_process_stderr_chunk` (`session.py:446`, `session.py:486`) rebind a
function-local parameter of those helpers and never reach the loop
variable, and the remaining assignment (`session.py:353`) is in the
password-manager branch; so in the modelled configuration the loop
variable keeps its initial value. -/

/-- Any suffix of the list satisfies the head test (the scan of
`re.search`). -/
def anySuffix (f : List Char → Bool) : List Char → Bool
  | [] => f []
  | c :: cs => f (c :: cs) || anySuffix f cs

/-- Case-insensitive literal at the head of the input (`re.IGNORECASE`
search step); the literal is given lowercase. -/
def ciLit (pat : String) (s : List Char) : Bool :=
  litCIPrefix pat.toList s

/-- `\[sudo\] password for [^:]+:` at the head: the literal (20
characters), then a nonempty greedy run of non-colons, then a colon (the
character that terminates the greedy run, so no backtracking arises). -/
def sudoPat1At (s : List Char) : Bool :=
  litCIPrefix "[sudo] password for ".toList s &&
    (let rest := s.drop 20
     let r := countLeading (fun c => !(c = ':')) rest
     decide (1 ≤ r) && (rest.get? r == some ':'))

/-- `\[sudo\] password for [^:]*$` at the head: the literal, then only
non-colon characters to the end of the text (`$` also matches before a
final newline, and a newline is itself a non-colon character, so the
condition is simply the absence of a colon). -/
def sudoPat2At (s : List Char) : Bool :=
  litCIPrefix "[sudo] password for ".toList s && !((s.drop 20).contains ':')

/-- `session.py:551` (`_check_for_password_prompt_without_manager`): the
seven sudo prompt patterns searched with `re.IGNORECASE` (the third and
fourth pattern of the source, `Password:` and `password:`, coincide under
IGNORECASE). -/
def checkPasswordPromptPatterns (buffer : List Char) : Bool :=
  anySuffix sudoPat1At buffer ||
  anySuffix sudoPat2At buffer ||
  anySuffix (ciLit "password:") buffer ||
  anySuffix (ciLit "password:") buffer ||
  anySuffix (ciLit "sudo: a terminal is required to read the password") buffer ||
  anySuffix (ciLit "sudo: no tty present and no askpass program specified") buffer ||
  anySuffix (ciLit "we trust you have received the usual lecture from the local system") buffer

/-- `session.py:326-333` — the `output_data` dictionary of the read loop
(`stdout_parts` is initialized and never appended by the source; `buffer`
carries the stdout text).  The optional fields model dictionary keys that
are only added when set. -/
structure OutputData where
  stdout_parts : List String := []
  stderr_parts : List String := []
  buffer : String := ""
  total_bytes : Nat := 0
  truncated : Bool := false
  exit_status : Option Nat := none
  password_error : Option String := none
  timeout_error : Option String := none
deriving DecidableEq, Repr

/-- `session.py:566` — the password-required error message. -/
def passwordRequiredMsg : String :=
  "Password required but not provided. Use sudo_password parameter or set MCP_SSH_SUDO_PASSWORD environment variable."

/-- Digit run value (for the exit-status sentinel). -/
def digitsToNat (ds : List Char) : Nat :=
  ds.foldl (fun a c => a * 10 + (c.toNat - 48)) 0

/-- `__EXIT_STATUS:(\d+)__` at the head of the input: the literal, a
nonempty greedy digit run, then `__` (the two underscores cannot extend
the digit run, so no backtracking arises).  Returns the parsed value and
the match length. -/
def exitStatusAt (s : List Char) : Option (Nat × Nat) :=
  if "__EXIT_STATUS:".toList.isPrefixOf s then
    let r := countLeading Char.isDigit (s.drop 14)
    if 1 ≤ r && "__".toList.isPrefixOf (s.drop (14 + r)) then
      some (digitsToNat ((s.drop 14).take r), 14 + r + 2)
    else none
  else none

/-- `re.search(r'__EXIT_STATUS:(\d+)__', buffer)`: value of the first
match. -/
def findExitStatus : List Char → Option Nat
  | [] => none
  | c :: cs =>
    match exitStatusAt (c :: cs) with
    | some (v, _) => some v
    | none => findExitStatus cs

/-- Match length of `__EXIT_STATUS:\d+__\s*` (the sentinel plus its
trailing whitespace) at the head, for the `re.sub` that strips it. -/
def mlExitSentinel (s : List Char) : Option Nat :=
  match exitStatusAt s with
  | some (_, L) => some (L + countLeading isRegexWs (s.drop L))
  | none => none

/-- `session.py:570` (`_check_exit_status`): if the buffer contains the
sentinel literal and the regex finds `__EXIT_STATUS:(\d+)__`, record the
exit status and strip every sentinel (with trailing whitespace) from the
buffer. -/
def check_exit_status (od : OutputData) : OutputData :=
  if containsSub "__EXIT_STATUS:".toList od.buffer.toList then
    match findExitStatus od.buffer.toList with
    | some v =>
      { od with exit_status := some v,
                buffer := (subRun mlExitSentinel [] od.buffer.toList).asString }
    | none => od
  else od

/-- `session.py:437` (`_process_stdout_chunk`), in the modelled
no-password-manager configuration: append the chunk to the buffer and the
byte count (the `last_output_time` assignment of the source rebinds a
local parameter and is lost; the sudo-prompt nudge only writes a newline
to the channel), then `_handle_password_prompts` — which, without a
manager, records `password_error` and exit status 1 when a prompt pattern
matches the buffer — then `_check_exit_status`. -/
def process_stdout_chunk (od : OutputData) (chunk : String) : OutputData :=
  let od := { od with buffer := od.buffer ++ chunk,
                      total_bytes := od.total_bytes + chunk.length }
  let od :=
    if checkPasswordPromptPatterns od.buffer.toList then
      { od with password_error := some passwordRequiredMsg, exit_status := some 1 }
    else od
  check_exit_status od

/-- `session.py:477` (`_process_stderr_chunk`): append to `stderr_parts`
and the byte count (again the `last_output_time` rebinding is lost). -/
def process_stderr_chunk (od : OutputData) (chunk : String) : OutputData :=
  { od with stderr_parts := od.stderr_parts ++ [chunk],
            total_bytes := od.total_bytes + chunk.length }

/-- `session.py:578` (`_should_stop_reading`). -/
def should_stop_reading (od : OutputData) (maxOutputBytes : Nat) : Bool :=
  od.exit_status.isSome || decide (od.total_bytes > maxOutputBytes) ||
  od.password_error.isSome || od.timeout_error.isSome

/-- `session.py:411` (`_create_timeout_result`) — the hang-watchdog
result. -/
def timeoutResultOD : OutputData :=
  { exit_status := some 1,
    timeout_error := some "Command timed out - may be waiting for input. Check if password is required." }

/-- `session.py:424` (`_create_sudo_timeout_result`). -/
def sudoTimeoutResultOD (command : String) : OutputData :=
  { exit_status := some 1,
    timeout_error := some ("Sudo command timed out: " ++ command ++
      ". Ensure sudo password is configured correctly.") }

/-- `context['command'].strip().startswith('sudo')` (`session.py:340`). -/
def isSudoCommand (command : String) : Bool :=
  strippedStartsWith command "sudo"

/-- One pass of the `while` loop of `_read_command_output`
(`session.py:345-404`) in the modelled configuration, driven by `fuel`
(always at least the remaining ticks, so the `while` condition, not the
fuel, ends the loop): check the deadline, check the hang watchdog
(`_is_hanging`: strictly more than 10 s = 1000 ticks since
`last_output_time`, which keeps its initial value 0 — see the section
comment), process the stdout and stderr chunks available at this tick,
stop if `_should_stop_reading`, else sleep one tick.  Returns the final
`output_data` and the tick at which the loop ended. -/
def readLoopGo (command : String) (maxOutputBytes timeoutTicks : Nat)
    (env : Nat → Option String × Option String) :
    Nat → Nat → Nat → OutputData → OutputData × Nat
  | 0, t, _, od => (od, t)
  | fuel + 1, t, lastOutput, od =>
    if t < timeoutTicks then
      if t - lastOutput > 1000 then
        if isSudoCommand command then (sudoTimeoutResultOD command, t)
        else (timeoutResultOD, t)
      else
        let od := match (env t).1 with
          | some chunk => process_stdout_chunk od chunk
          | none => od
        let od := match (env t).2 with
          | some chunk => process_stderr_chunk od chunk
          | none => od
        if should_stop_reading od maxOutputBytes then (od, t)
        else readLoopGo command maxOutputBytes timeoutTicks env fuel (t + 1) lastOutput od
    else (od, t)

/-- `session.py:324` (`_read_command_output`) in the modelled
configuration: start at tick 0 with `last_output_time = 0` and the fresh
`output_data`. -/
def read_command_output (command : String) (maxOutputBytes timeoutTicks : Nat)
    (env : Nat → Option String × Option String) : OutputData × Nat :=
  readLoopGo command maxOutputBytes timeoutTicks env (timeoutTicks + 1) 0 0 {}

/-- `session.py:22` (`CommandResult`). -/
structure CommandResult where
  stdout : String
  stderr : String
  exit_status : Option Nat
  duration_ms : Nat
  truncated : Bool := false
  session_id : String := ""
deriving DecidableEq, Repr

/-- `\x1b\[[0-9;]*m` at the head (ANSI color sequences): ESC, `[`, a
greedy run of digits and semicolons, then `m` (not in the class, so no
backtracking). -/
def mlAnsi : List Char → Option Nat
  | a :: b :: rest =>
    if a = Char.ofNat 27 && b = '[' then
      let r := countLeading (fun c => c.isDigit || c = ';') rest
      if rest.get? r == some 'm' then some (r + 3) else none
    else none
  | _ => none

/-- `re.match(r'[\$#]\s*$', line)` (the `prompt_pattern` of
`session.py:59`, anchored at the start by `match`): first character `$` or
`#`, then only whitespace to the end (`$` can also sit before a final
newline, itself a whitespace character, so the condition is that the rest
of the line is whitespace). -/
def promptLineMatch (line : List Char) : Bool :=
  match line with
  | c :: rest => (c = '$' || c = '#') && countLeading isRegexWs rest == rest.length
  | [] => false

/-- `session.py:753` (`_clean_output`): split on newlines, strip each
line, drop empty lines and prompt lines, strip ANSI color sequences,
rejoin. -/
def clean_output (output : String) : String :=
  let lines := splitLines output.toList
  let cleaned := lines.filterMap (fun line =>
    let line := stripChars line
    if !line.isEmpty && !promptLineMatch line then some (subRun mlAnsi [] line)
    else none)
  (joinLines cleaned).asString

/-- `session.py:632` (`_limit_output_lines`). -/
def limit_output_lines (maxOutputLines : Nat) (stdout : String)
    (already_truncated : Bool) : String × Bool :=
  let stdout_lines := splitLines stdout.toList
  if stdout_lines.length > maxOutputLines then
    ((joinLines (stdout_lines.take maxOutputLines ++
      [("... [output truncated after " ++ toString maxOutputLines ++ " lines]").toList])).asString,
     true)
  else (stdout, already_truncated)

/-- `session.py:585` (`_create_command_result`): the timeout and
password-error results short-circuit; otherwise clean the buffer, redact
secrets from both streams, apply the line cap to `stdout` starting from
`output_data['truncated']`, and assemble the `CommandResult`.  The
duration is the wall clock at result creation (`endTick`, in 10 ms ticks)
times 10 ms. -/
def create_command_result (session_id : String) (maxOutputLines : Nat)
    (od : OutputData) (endTick : Nat) : CommandResult :=
  match od.timeout_error with
  | some msg =>
    { stdout := "", stderr := msg, exit_status := some 1,
      duration_ms := endTick * 10, truncated := false, session_id := session_id }
  | none =>
    match od.password_error with
    | some msg =>
      { stdout := "", stderr := msg, exit_status := some 1,
        duration_ms := endTick * 10, truncated := false, session_id := session_id }
    | none =>
      let stdout := clean_output od.buffer
      let stderr := String.join od.stderr_parts
      let stdout := redact_secrets stdout
      let stderr := redact_secrets stderr
      let lim := limit_output_lines maxOutputLines stdout od.truncated
      { stdout := lim.1, stderr := stderr, exit_status := od.exit_status,
        duration_ms := endTick * 10, truncated := lim.2, session_id := session_id }

/-- The read loop followed by result creation (the part of
`execute_command` after validation and dispatch, `session.py:161-162`). -/
def run_command_in_session (session_id command : String)
    (maxOutputBytes maxOutputLines timeoutTicks : Nat)
    (env : Nat → Option String × Option String) : CommandResult :=
  let r := read_command_output command maxOutputBytes timeoutTicks env
  create_command_result session_id maxOutputLines r.1 r.2

/-! ## `SessionManager` (`session_manager.py`) -/

/-- `session.py:43` — the session object, reduced to its identity fields
and connection flag (the transport handles play no role in the registry
claims). -/
structure PySession where
  session_id : String
  host : String
  port : Nat
  username : String
  connected : Bool := false
deriving DecidableEq, Repr

/-- Delete a key from an association list (Python `del d[k]`; the lists
are used with distinct keys). -/
def assocErase (k : String) (l : List (String × α)) : List (String × α) :=
  l.filter (fun p => !(p.1 = k))

/-- Update the value stored at a key (Python `d[k] = v` for an existing
key). -/
def assocSet (k : String) (v : α) (l : List (String × α)) : List (String × α) :=
  l.map (fun p => if p.1 = k then (k, v) else p)

/-- `session_manager.py:25` — the two dictionaries of `SessionManager`,
as insertion-ordered association lists. -/
structure SessionManagerState where
  sessions : List (String × PySession) := []
  session_creation_times : List (String × Nat) := []
deriving DecidableEq, Repr

/-- `session_manager.py:51` (`remove_session`): absent id returns false;
otherwise the session is removed from both dictionaries (the disconnect
only touches the discarded session object). -/
def remove_session (st : SessionManagerState) (sid : String) :
    Bool × SessionManagerState :=
  if (st.sessions.lookup sid).isSome then
    (true, ⟨assocErase sid st.sessions, assocErase sid st.session_creation_times⟩)
  else (false, st)

/-- `min(self.session_creation_times.keys(), key=...)`
(`session_manager.py:109`): the first key (in insertion order) with the
minimal creation time; `none` models the `ValueError` of `min` on an
empty sequence. -/
def oldestSessionId (times : List (String × Nat)) : Option String :=
  match times with
  | [] => none
  | kv :: rest =>
    some (rest.foldl (fun best p => if p.2 < best.2 then p else best) kv).1

/-- `session_manager.py:104` (`_remove_oldest_session`): nothing to do on
an empty registry; otherwise remove the session with the earliest
creation time.  `none` models the uncaught `ValueError` when the
creation-time dictionary is empty while the session dictionary is not
(unreachable under the registry invariant). -/
def remove_oldest_session (st : SessionManagerState) : Option SessionManagerState :=
  if st.sessions.isEmpty then some st
  else
    match oldestSessionId st.session_creation_times with
    | some sid => some (remove_session st sid).2
    | none => none

/-- Outcome of `create_session`: success, the `ValueError` for a duplicate
id (`session_manager.py:34`), or the `ValueError` surfaced from
`_remove_oldest_session`. -/
inductive CreateSessionOutcome where
  | ok (st : SessionManagerState) (s : PySession)
  | duplicateIdError
  | minOfEmptyError
deriving DecidableEq, Repr

/-- `session_manager.py:31` (`create_session`): fail on an id collision;
evict the oldest session when the population is at (or above)
`max_sessions`; insert the new session in both dictionaries with the
current time `now`. -/
def create_session (max_sessions now : Nat) (st : SessionManagerState)
    (sid host : String) (port : Nat) (username : String) : CreateSessionOutcome :=
  if (st.sessions.lookup sid).isSome then .duplicateIdError
  else
    match (if st.sessions.length ≥ max_sessions then remove_oldest_session st else some st) with
    | none => .minOfEmptyError
    | some st2 =>
      let s : PySession := ⟨sid, host, port, username, false⟩
      .ok ⟨st2.sessions ++ [(sid, s)], st2.session_creation_times ++ [(sid, now)]⟩ s

/-- The registry invariant (spec §3): the two dictionaries have the same
keys (here, as insertion-ordered sequences) and the keys are distinct. -/
def SMWF (st : SessionManagerState) : Prop :=
  st.sessions.map Prod.fst = st.session_creation_times.map Prod.fst ∧
  (st.sessions.map Prod.fst).Nodup

instance (st : SessionManagerState) : Decidable (SMWF st) := by
  unfold SMWF; infer_instance

/-! ## `InteractivePasswordService` (`interactive_password_service.py`) -/

/-- The state of an `asyncio.Future`: unresolved, or resolved with the
value the awaiting caller will receive (`none` models cancellation or
timeout, `some pw` a delivered password). -/
inductive FutureState where
  | unresolved
  | resolved (value : Option String)
deriving DecidableEq, Repr

/-- `interactive_password_service.py:12` (`PasswordRequest`). -/
structure PasswordRequest where
  request_id : String
  prompt_text : String
  prompt_type : String
  session_id : String
  host : String
  username : String
  command : String
  timestamp : Nat
  timeout_seconds : Nat := 60
deriving DecidableEq, Repr

/-- `interactive_password_service.py:36` — the two dictionaries of the
service (`pending_requests` and `response_callbacks`). -/
structure PasswordServiceState where
  pending_requests : List (String × PasswordRequest) := []
  response_callbacks : List (String × FutureState) := []
deriving DecidableEq, Repr

/-- `interactive_password_service.py:108` (`provide_password`): unknown
id returns false; a done future returns false; otherwise the future is
resolved with the password and the call returns true. -/
def provide_password (st : PasswordServiceState) (request_id password : String) :
    Bool × PasswordServiceState :=
  match st.response_callbacks.lookup request_id with
  | none => (false, st)
  | some .unresolved =>
    (true,
      { st with
        response_callbacks :=
          assocSet request_id (.resolved (some password)) st.response_callbacks })
  | some (.resolved _) => (false, st)

/-- `interactive_password_service.py:123` (`cancel_request`): unknown id
or done future returns false; otherwise resolve with `None`. -/
def cancel_request (st : PasswordServiceState) (request_id : String) :
    Bool × PasswordServiceState :=
  match st.response_callbacks.lookup request_id with
  | none => (false, st)
  | some .unresolved =>
    (true,
      { st with
        response_callbacks :=
          assocSet request_id (.resolved none) st.response_callbacks })
  | some (.resolved _) => (false, st)

/-- The first phase of `request_password`
(`interactive_password_service.py:74-78`): store the request and an
unresolved future under the fresh request id. -/
def request_password_register (st : PasswordServiceState) (req : PasswordRequest) :
    PasswordServiceState :=
  ⟨st.pending_requests ++ [(req.request_id, req)],
   st.response_callbacks ++ [(req.request_id, .unresolved)]⟩

/-- The final phase of `request_password` in the no-callback path
(`interactive_password_service.py:91-106`): the suspended caller resumes
with the resolved value of its future (`none` on timeout or
cancellation), and the `finally` block removes the id from both
dictionaries. -/
def request_password_finish (st : PasswordServiceState) (request_id : String) :
    Option String × PasswordServiceState :=
  let value := match st.response_callbacks.lookup request_id with
    | some (.resolved v) => v
    | _ => none
  (value, ⟨assocErase request_id st.pending_requests,
           assocErase request_id st.response_callbacks⟩)

/-- A run of commas (comma is in no secret-pattern class, no prompt
pattern and no sentinel, which keeps the concrete loop scenarios
inert with respect to redaction and prompt detection). -/
def commasStr (n : Nat) : String := (List.replicate n ',').asString

/-- Channel environment for the output-cap scenario: a 30-byte stdout
chunk at tick 0 and a 25-byte chunk at tick 1, then silence. -/
def envByteCap : Nat → Option String × Option String := fun t =>
  if t = 0 then (some (commasStr 30), none)
  else if t = 1 then (some (commasStr 25), none)
  else (none, none)

/-- Channel environment for the watchdog scenario: a one-byte stdout
chunk every second (every 100 ticks), forever — the remote never stops
emitting output. -/
def envSteadyOutput : Nat → Option String × Option String := fun t =>
  if t % 100 = 0 then (some ",", none) else (none, none)

/-! ## Notions for the idempotence analysis of `redact_secrets` -/

/-- The pattern has no match at any position of the text. -/
def NoMatch (ml : List Char → Option Nat) (t : List Char) : Prop :=
  ∀ p : Nat, ml (List.drop p t) = none

/-- Facts shared by the six bracket-free secret matchers (all but the PEM
pattern): a match is nonempty, fits in the text, and contains no square
bracket; and a match that fits inside a prefix of the text survives any
replacement of the rest of the text (extension stability — these matchers
end with an optional or counted class span, never a mandatory trailing
literal). -/
structure PatternFacts (mlI : List Char → Option Nat) : Prop where
  k1 : ∀ s n, mlI s = some n →
    1 ≤ n ∧ n ≤ s.length ∧ ∀ k, k < n → s.get? k ≠ some '[' ∧ s.get? k ≠ some ']'
  k2 : ∀ (a b bb : List Char) (n : Nat), mlI (a ++ b) = some n → n ≤ a.length →
    mlI (a ++ bb) ≠ none

/-- Compatibility of a text fragment with the start of a case-insensitive
literal: the fragment agrees with the literal as far as both extend. -/
def litCICompat (lit u : List Char) : Bool :=
  litCIPrefix (lit.take u.length) u

/-- Compatibility of a fragment with the start of a base64-pattern match:
the leading class span already reaches 40, or it swallows the whole
fragment (so that a continuation could extend it). -/
def startCompatB64 (u : List Char) : Bool :=
  40 ≤ countLeading classB64 u || countLeading classB64 u == u.length

/-- Compatibility of a fragment with the start of a Slack-pattern match
(`xox`, a `[baprs]` letter, `-`), checked as far as the fragment
extends. -/
def startCompatXox (u : List Char) : Bool :=
  (match u.get? 0 with | some c => toLowerAscii c = 'x' | none => true) &&
  (match u.get? 1 with | some c => toLowerAscii c = 'o' | none => true) &&
  (match u.get? 2 with | some c => toLowerAscii c = 'x' | none => true) &&
  (match u.get? 3 with
   | some c => toLowerAscii c = 'b' || toLowerAscii c = 'a' || toLowerAscii c = 'p' ||
       toLowerAscii c = 'r' || toLowerAscii c = 's'
   | none => true) &&
  (match u.get? 4 with | some c => c = '-' | none => true)

/-- Some position of the text carries an END block (`-----END [A-Z ]+-----`). -/
def EndIn (s : List Char) : Prop :=
  ∃ p e, endBlockLen (List.drop p s) = some e

/-- Compatibility of a fragment with a pattern whose matches start with a
hyphen (the PEM BEGIN header and END block). -/
def compatHeadDash (u : List Char) : Bool :=
  match u.head? with
  | some c => c = '-'
  | none => true

/-- The seven replacement strings of the pattern table. -/
def allReps : List (List Char) := secret_patterns.map Prod.snd

/-! # Theorems -/

/-- Any command that strips to a nonempty string and tokenizes to a
nonempty token list reaches the `denied_commands` attribute lookup, which
fails on every `SecurityConfig`. -/
theorem validate_command_reaches_attr_lookup (cfg : SecurityConfig) (command : String)
    (parts : List String) (h1 : pyStrip command ≠ "")
    (h2 : shlexSplit (pyStrip command) = .ok parts) (h3 : parts ≠ []) :
    validate_command cfg command =
      .error (.attributeError "SecurityConfig" "denied_commands") := by
  unfold validate_command
  rw [if_neg h1, h2]
  cases parts with
  | nil => exact absurd rfl h3
  | cons c rest => rfl

/-- C3: for every non-empty command string that parses under POSIX
shell-word splitting into a nonempty token list, `validate_command` does
not return a validation result but raises an uncaught `AttributeError`:
it reads the configuration attribute `denied_commands`, which the
`SecurityConfig` dataclass does not define (only `always_denied_commands`
and the level-selected lists exist); only `ValueError` from tokenizing is
caught. -/
theorem c3_validate_command_raises_attribute_error (cfg : SecurityConfig)
    (command : String) (parts : List String) (h1 : pyStrip command ≠ "")
    (h2 : shlexSplit (pyStrip command) = Except.ok parts) (h3 : parts ≠ []) :
    validate_command cfg command =
      Except.error (PyError.attributeError "SecurityConfig" "denied_commands") :=
  validate_command_reaches_attr_lookup cfg command parts h1 h2 h3

/-- Witness for C3 at the command `ls -la` under the default (MEDIUM)
configuration. -/
theorem c3_validate_command_raises_attribute_error_witness :
    pyStrip "ls -la" ≠ "" ∧
    shlexSplit (pyStrip "ls -la") = Except.ok ["ls", "-la"] ∧
    validate_command (securityConfigAt .medium) "ls -la" =
      Except.error (PyError.attributeError "SecurityConfig" "denied_commands") :=
  ⟨by decide, rfl,
    c3_validate_command_raises_attribute_error (securityConfigAt .medium) "ls -la"
      ["ls", "-la"] (by decide) rfl (by simp)⟩

/-- C1 (code bug): a command whose first shell token *is* an entry of the
always-denied list — `"rm -rf /"` quoted so that `shlex` yields it as the
single token — does not produce a rejection at any permissibility level:
`validate_command` raises `AttributeError` at the `denied_commands` lookup
(`security.py:86`) before the always-denied data is ever consulted. -/
theorem c1_always_denied_lookup_raises :
    shlexSplit (pyStrip "\"rm -rf /\"") = Except.ok ["rm -rf /"] ∧
    "rm -rf /" ∈ (securityConfigAt .medium).always_denied_commands ∧
    ∀ l : PermissibilityLevel,
      validate_command (securityConfigAt l) "\"rm -rf /\"" =
        Except.error (PyError.attributeError "SecurityConfig" "denied_commands") :=
  ⟨rfl, by decide, fun _l =>
    validate_command_reaches_attr_lookup _ _ ["rm -rf /"] (by decide) rfl (by simp)⟩

/-- C2 (code bug): at MEDIUM, the command `ls | wc -l` has its identifier
`ls` in the MEDIUM allow-set, contains a chaining metacharacter (a pipe),
and matches none of the four filesystem-destruction patterns that
`get_denied_patterns` selects for MEDIUM — yet `validate_command` never
applies the level's pattern list: it raises `AttributeError` at the
`denied_commands` lookup first (and the dangerous-pattern list hardcoded
at `security.py:100-104` is the LOW-style metacharacter list, not the
level-selected one). -/
theorem c2_medium_pipe_command_never_reaches_level_patterns :
    "ls" ∈ (securityConfigAt .medium).get_allowed_commands ∧
    strSearch "|" "ls | wc -l" = true ∧
    ((securityConfigAt .medium).get_denied_patterns.all
      (fun p => !(p "ls | wc -l"))) = true ∧
    validate_command (securityConfigAt .medium) "ls | wc -l" =
      Except.error (PyError.attributeError "SecurityConfig" "denied_commands") :=
  ⟨by decide, by decide, by decide,
    validate_command_reaches_attr_lookup _ _ ["ls", "|", "wc", "-l"] (by decide) rfl (by simp)⟩

/-- C6: For every command identifier `c`, the effective allow-set widens
monotonically with the permissibility level: membership at LOW implies
membership at MEDIUM, and membership at MEDIUM implies membership at HIGH.
Stated for an arbitrary configuration record (hence in particular for the
default one), varying only the level. -/
theorem c6_allow_set_monotone (cfg : SecurityConfig) (c : String) :
    (c ∈ ({ cfg with permissibility_level := .low } : SecurityConfig).get_allowed_commands →
      c ∈ ({ cfg with permissibility_level := .medium } : SecurityConfig).get_allowed_commands) ∧
    (c ∈ ({ cfg with permissibility_level := .medium } : SecurityConfig).get_allowed_commands →
      c ∈ ({ cfg with permissibility_level := .high } : SecurityConfig).get_allowed_commands) := by
  constructor
  · intro h
    simp only [SecurityConfig.get_allowed_commands] at h ⊢
    exact List.mem_append_left _ h
  · intro h
    simp only [SecurityConfig.get_allowed_commands] at h ⊢
    exact List.mem_append_left _ h

/-- Witness for C6: `ls` is allowed at LOW under the default configuration,
and the monotonicity theorem transports it to MEDIUM and HIGH. -/
theorem c6_allow_set_monotone_witness :
    "ls" ∈ (securityConfigAt .medium).get_allowed_commands ∧
    "ls" ∈ (securityConfigAt .high).get_allowed_commands := by
  have hlow : "ls" ∈ (securityConfigAt .low).get_allowed_commands := by decide
  have h1 := (c6_allow_set_monotone (securityConfigAt .low) "ls").1 hlow
  have h2 := (c6_allow_set_monotone (securityConfigAt .low) "ls").2 h1
  exact ⟨h1, h2⟩

/-- C4 (code bug): with an output cap of 40 bytes and a remote emitting
30 + 25 = 55 bytes, the read loop stops at the second tick because the
total exceeds the cap — but the returned `CommandResult` has
`truncated = false`: nothing in the source sets `output_data['truncated']`
when `_should_stop_reading` fires on the byte cap, and
`_limit_output_lines` only sets it past the *line* cap.  The whole
buffered output (55 bytes, over the cap) is returned as stdout and
`exit_status` is null. -/
theorem c4_output_cap_exceeded_result_not_truncated :
    (read_command_output "cat data" 40 30000 envByteCap).1.total_bytes = 55 ∧
    40 < (read_command_output "cat data" 40 30000 envByteCap).1.total_bytes ∧
    (read_command_output "cat data" 40 30000 envByteCap).2 = 1 ∧
    run_command_in_session "s" "cat data" 40 10000 30000 envByteCap =
      { stdout := commasStr 55, stderr := "", exit_status := none,
        duration_ms := 10, truncated := false, session_id := "s" } :=
  ⟨rfl, by decide, rfl, rfl⟩

/-- C5 (code bug): under a channel that emits a byte every second —
never 10 seconds of silence — the non-sudo, no-password-manager read loop
still returns the hang-watchdog timeout result at tick 1001 (10.01 s):
the `last_output_time` reset inside `_process_stdout_chunk` rebinds a
local parameter and never reaches the loop, so receiving chunks does not
reset the silence measurement and a command that keeps emitting output is
aborted by the watchdog. -/
theorem c5_watchdog_fires_despite_continuous_output :
    ((List.range 11).all fun k => (envSteadyOutput (k * 100)).1 == some ",") = true ∧
    (read_command_output "ls" 10485760 1000 envSteadyOutput).1.total_bytes = 10 ∧
    (read_command_output "ls" 10485760 30000 envSteadyOutput).2 = 1001 ∧
    run_command_in_session "s" "ls" 10485760 10000 30000 envSteadyOutput =
      { stdout := "",
        stderr := "Command timed out - may be waiting for input. Check if password is required.",
        exit_status := some 1, duration_ms := 10010, truncated := false,
        session_id := "s" } :=
  ⟨by decide, rfl, rfl, rfl⟩

/-! ## Scanning lemmas -/

theorem countLeading_le (p : Char → Bool) (s : List Char) :
    countLeading p s ≤ s.length := by
  induction s with
  | nil => simp [countLeading]
  | cons c cs ih =>
    by_cases h : p c <;> simp [countLeading, h] <;> omega

theorem countLeading_get (p : Char → Bool) (s : List Char) (k : Nat)
    (h : k < countLeading p s) : ∃ c, s.get? k = some c ∧ p c = true := by
  induction s generalizing k with
  | nil => simp [countLeading] at h
  | cons c cs ih =>
    by_cases hc : p c
    · cases k with
      | zero => exact ⟨c, rfl, hc⟩
      | succ k =>
        simp only [countLeading, hc, if_true] at h
        exact ih k (by omega)
    · simp [countLeading, hc] at h

theorem countLeading_ge (p : Char → Bool) (s : List Char) (m : Nat)
    (h : ∀ k, k < m → ∃ c, s.get? k = some c ∧ p c = true) :
    m ≤ countLeading p s := by
  induction s generalizing m with
  | nil =>
    cases m with
    | zero => simp
    | succ m => obtain ⟨c, hc, _⟩ := h 0 (by omega); simp at hc
  | cons c cs ih =>
    cases m with
    | zero => simp
    | succ m =>
      obtain ⟨c0, hc0, hp0⟩ := h 0 (by omega)
      simp only [List.get?] at hc0
      cases hc0
      have h1 : m ≤ countLeading p cs := by
        apply ih
        intro k hk
        exact h (k + 1) (by omega)
      simp [countLeading, hp0]
      omega

theorem countLeading_append (p : Char → Bool) (a b : List Char) :
    countLeading p (a ++ b) =
      if countLeading p a < a.length then countLeading p a
      else a.length + countLeading p b := by
  induction a with
  | nil => simp [countLeading]
  | cons c cs ih =>
    have hstep : (c :: cs) ++ b = c :: (cs ++ b) := rfl
    rw [hstep]
    by_cases h : p c
    · simp only [countLeading, h, if_true]
      rw [ih]
      simp only [List.length_cons]
      split_ifs <;> omega
    · have hlt : (0 : Nat) < (c :: cs).length := by simp
      simp [countLeading, h, hlt]

theorem countLeading_take (p : Char → Bool) (s : List Char) (k : Nat) :
    countLeading p (s.take k) = min (countLeading p s) k := by
  induction s generalizing k with
  | nil => simp [countLeading]
  | cons c cs ih =>
    cases k with
    | zero => simp [countLeading]
    | succ k => by_cases h : p c <;> simp [countLeading, h, ih] <;> omega

theorem litCIPrefix_length (lit s : List Char) (h : litCIPrefix lit s = true) :
    lit.length ≤ s.length := by
  induction lit generalizing s with
  | nil => simp
  | cons l ls ih =>
    cases s with
    | nil => simp [litCIPrefix] at h
    | cons c cs =>
      simp only [litCIPrefix, Bool.and_eq_true] at h
      have := ih cs h.2
      simp only [List.length_cons]
      omega

theorem litCIPrefix_get (lit s : List Char) (h : litCIPrefix lit s = true)
    (j : Nat) (hj : j < lit.length) :
    ∃ c, s.get? j = some c ∧ lit.get? j = some (toLowerAscii c) := by
  induction lit generalizing s j with
  | nil => simp at hj
  | cons l ls ih =>
    cases s with
    | nil => simp [litCIPrefix] at h
    | cons c cs =>
      simp only [litCIPrefix, Bool.and_eq_true, decide_eq_true_eq] at h
      cases j with
      | zero => exact ⟨c, rfl, by simp [h.1]⟩
      | succ j =>
        simpa using ih cs h.2 j (by simpa using hj)

theorem litCIPrefix_of_get (lit s : List Char)
    (h : ∀ j, j < lit.length → ∃ c, s.get? j = some c ∧ lit.get? j = some (toLowerAscii c)) :
    litCIPrefix lit s = true := by
  induction lit generalizing s with
  | nil => simp [litCIPrefix]
  | cons l ls ih =>
    obtain ⟨c, hc, hl⟩ := h 0 (by simp)
    cases s with
    | nil => simp at hc
    | cons c0 cs =>
      simp only [List.get?] at hc hl
      cases hc
      simp only [Option.some.injEq] at hl
      simp only [litCIPrefix, Bool.and_eq_true, decide_eq_true_eq]
      refine ⟨hl.symm, ih cs ?_⟩
      intro j hj
      simpa using h (j + 1) (by simpa using hj)

theorem isPrefixOf_get (lit s : List Char) (h : lit.isPrefixOf s = true)
    (j : Nat) (hj : j < lit.length) : s.get? j = lit.get? j := by
  have hpre : lit <+: s := List.isPrefixOf_iff_prefix.mp h
  have htake : lit = s.take lit.length := List.prefix_iff_eq_take.mp hpre
  rw [htake]
  exact (List.get?_take hj).symm

theorem isPrefixOf_of_get (lit s : List Char)
    (h : ∀ j, j < lit.length → s.get? j = lit.get? j) :
    lit.isPrefixOf s = true := by
  induction lit generalizing s with
  | nil => simp [List.isPrefixOf]
  | cons l ls ih =>
    have h0 := h 0 (by simp)
    cases s with
    | nil => simp at h0
    | cons c cs =>
      simp only [List.get?, Option.some.injEq] at h0
      cases h0
      simp only [List.isPrefixOf, Bool.and_eq_true, beq_self_eq_true, true_and]
      apply ih
      intro j hj
      simpa using h (j + 1) (by simpa using hj)

theorem subRunAux_fuel (ml : List Char → Option Nat) (rep : List Char) :
    ∀ f g s, s.length ≤ f → s.length ≤ g →
      subRunAux ml rep f s = subRunAux ml rep g s := by
  intro f
  induction f with
  | zero =>
    intro g s hf _
    have : s = [] := List.eq_nil_of_length_eq_zero (by omega)
    subst this
    cases g <;> rfl
  | succ f ih =>
    intro g s hf hg
    cases s with
    | nil => cases g <;> rfl
    | cons c cs =>
      cases g with
      | zero => simp at hg
      | succ g =>
        simp only [subRunAux]
        cases hml : ml (c :: cs) with
        | some n =>
          simp only []
          congr 1
          exact ih g (cs.drop (n - 1))
            (by simp only [List.length_drop]; simp at hf; omega)
            (by simp only [List.length_drop]; simp at hg; omega)
        | none =>
          simp only []
          congr 1
          exact ih g cs (by simp at hf; omega) (by simp at hg; omega)

theorem subRun_nil (ml : List Char → Option Nat) (rep : List Char) :
    subRun ml rep [] = [] := rfl

theorem subRun_cons_none {ml : List Char → Option Nat} {rep : List Char}
    {c : Char} {cs : List Char} (hml : ml (c :: cs) = none) :
    subRun ml rep (c :: cs) = c :: subRun ml rep cs := by
  simp [subRun, subRunAux, hml]

theorem subRun_cons_some {ml : List Char → Option Nat} {rep : List Char}
    {c : Char} {cs : List Char} {n : Nat} (hml : ml (c :: cs) = some n) :
    subRun ml rep (c :: cs) = rep ++ subRun ml rep (cs.drop (n - 1)) := by
  simp only [subRun, List.length_cons, subRunAux, hml]
  congr 1
  exact subRunAux_fuel ml rep cs.length (cs.drop (n - 1)).length (cs.drop (n - 1))
    (by simp [List.length_drop]) (le_refl _)

theorem subRun_id (ml : List Char → Option Nat) (rep : List Char) (t : List Char)
    (h : NoMatch ml t) : subRun ml rep t = t := by
  induction t with
  | nil => rfl
  | cons c cs ih =>
    have h0 : ml (c :: cs) = none := by simpa using h 0
    rw [subRun_cons_none h0]
    have : subRun ml rep cs = cs := by
      apply ih
      intro p
      simpa using h (p + 1)
    rw [this]

theorem subRun_take_agree (ml : List Char → Option Nat) (rep : List Char)
    (hrep : rep.head? = some '[') :
    ∀ (t : List Char) (n : Nat),
      (∀ k, k < n → (subRun ml rep t).get? k ≠ some '[') →
      (subRun ml rep t).take n = t.take n := by
  intro t
  obtain ⟨r, hr⟩ : ∃ r, rep = '[' :: r := by
    cases rep with
    | nil => simp at hrep
    | cons a b => simp at hrep; exact ⟨b, by rw [hrep]⟩
  induction t with
  | nil => simp [subRun_nil]
  | cons c cs ih =>
    intro n hbr
    cases hml : ml (c :: cs) with
    | some m =>
      cases n with
      | zero => simp
      | succ n =>
        exfalso
        apply hbr 0 (by omega)
        rw [subRun_cons_some hml, hr]
        rfl
    | none =>
      rw [subRun_cons_none hml]
      cases n with
      | zero => simp
      | succ n =>
        simp only [List.take_succ_cons]
        congr 1
        apply ih n
        intro k hk
        have := hbr (k + 1) (by omega)
        rw [subRun_cons_none hml] at this
        simpa using this

theorem subRun_split (ml : List Char → Option Nat) (rep : List Char)
    (hrep : rep.head? = some '[') :
    ∀ (k : Nat) (t : List Char),
      (∀ j, j < k → (subRun ml rep t).get? j ≠ some '[') →
      subRun ml rep t = t.take k ++ subRun ml rep (t.drop k) := by
  intro k
  obtain ⟨r, hr⟩ : ∃ r, rep = '[' :: r := by
    cases rep with
    | nil => simp at hrep
    | cons a b => simp at hrep; exact ⟨b, by rw [hrep]⟩
  induction k with
  | zero => intro t _; simp
  | succ k ih =>
    intro t hbr
    cases t with
    | nil => simp [subRun_nil]
    | cons c cs =>
      cases hml : ml (c :: cs) with
      | some m =>
        exfalso
        apply hbr 0 (by omega)
        rw [subRun_cons_some hml, hr]
        rfl
      | none =>
        rw [subRun_cons_none hml]
        simp only [List.take_succ_cons, List.drop_succ_cons, List.cons_append]
        congr 1
        apply ih cs
        intro j hj
        have := hbr (j + 1) (by omega)
        rw [subRun_cons_none hml] at this
        simpa using this

theorem mlI_nil_none (mlI : List Char → Option Nat) (hK : PatternFacts mlI) :
    mlI [] = none := by
  cases h : mlI [] with
  | none => rfl
  | some n =>
    obtain ⟨h1, h2, _⟩ := hK.k1 [] n h
    simp at h2
    omega

/-- The master preservation lemma: substituting a bracket-delimited
replacement for any nonempty-match pattern `ml` cannot create matches of a
bracket-free, extension-stable pattern `mlI` whose matches cannot start
inside the replacement; in particular, positions at which `ml` itself
found no match keep their `mlI`-freeness. -/
theorem subRun_preserves_noMatch
    (ml mlI : List Char → Option Nat) (rep : List Char)
    (hrep : rep.head? = some '[')
    (hmlpos : ∀ s n, ml s = some n → 1 ≤ n)
    (hK : PatternFacts mlI)
    (hk3 : ∀ p, p < rep.length → ∀ X, mlI (List.drop p rep ++ X) = none) :
    ∀ (f : Nat) (t : List Char), t.length ≤ f →
      (∀ p, ml (List.drop p t) = none → mlI (List.drop p t) = none) →
      NoMatch mlI (subRun ml rep t) := by
  intro f
  induction f with
  | zero =>
    intro t hlen _ p
    have : t = [] := List.eq_nil_of_length_eq_zero (by omega)
    subst this
    simp [subRun_nil, mlI_nil_none mlI hK]
  | succ f ih =>
    intro t hlen Hrem
    cases t with
    | nil => intro p; simp [subRun_nil, mlI_nil_none mlI hK]
    | cons c cs =>
      cases hml : ml (c :: cs) with
      | some n =>
        have hn1 : 1 ≤ n := hmlpos _ _ hml
        rw [subRun_cons_some hml]
        intro p
        rcases Nat.lt_or_ge p rep.length with hp | hp
        · rw [List.drop_append_of_le_length (Nat.le_of_lt hp)]
          exact hk3 p hp _
        · have hsplit : (rep ++ subRun ml rep (cs.drop (n - 1))).drop p =
              (subRun ml rep (cs.drop (n - 1))).drop (p - rep.length) := by
            have h1 : p = rep.length + (p - rep.length) := by omega
            conv_lhs => rw [h1]
            rw [← List.drop_drop, List.drop_left]
          rw [hsplit]
          apply ih (cs.drop (n - 1))
            (by simp only [List.length_drop]; simp at hlen; omega)
          intro q
          have hdq : (cs.drop (n - 1)).drop q = (c :: cs).drop (n + q) := by
            rw [List.drop_drop]
            have h2 : n + q = (n - 1 + q) + 1 := by omega
            rw [h2, List.drop_succ_cons]
          rw [hdq]
          exact Hrem (n + q)
      | none =>
        rw [subRun_cons_none hml]
        intro p
        cases p with
        | succ p =>
          simp only [List.drop_succ_cons]
          have : NoMatch mlI (subRun ml rep cs) := by
            apply ih cs (by simp at hlen; omega)
            intro q
            simpa using Hrem (q + 1)
          exact this p
        | zero =>
          simp only [List.drop_zero]
          cases h2 : mlI (c :: subRun ml rep cs) with
          | none => rfl
          | some n =>
            exfalso
            have hform : c :: subRun ml rep cs = subRun ml rep (c :: cs) :=
              (subRun_cons_none hml).symm
            rw [hform] at h2
            obtain ⟨h1n, hnlen, hbr⟩ := hK.k1 _ n h2
            have htake := subRun_take_agree ml rep hrep (c :: cs) n
              (fun k hk => (hbr k hk).1)
            have hsplit2 : subRun ml rep (c :: cs) =
                (subRun ml rep (c :: cs)).take n ++ (subRun ml rep (c :: cs)).drop n :=
              (List.take_append_drop _ _).symm
            rw [hsplit2] at h2
            have hlen2 : n ≤ ((subRun ml rep (c :: cs)).take n).length := by
              simp only [List.length_take]
              omega
            have hext := hK.k2 _ _ ((c :: cs).drop n) n h2 hlen2
            rw [htake, List.take_append_drop] at hext
            exact hext (Hrem 0 (by simpa using hml))

/-! ## Facts about the individual secret matchers -/

theorem toLowerAscii_bracketL : toLowerAscii '[' = '[' := by decide

theorem toLowerAscii_bracketR : toLowerAscii ']' = ']' := by decide

theorem genPatternFacts (pre : List Char) (cl : Char → Bool)
    (cnt : Nat) (hpos : 1 ≤ pre.length + cnt)
    (hpreBr : ∀ l ∈ pre, l ≠ '[' ∧ l ≠ ']')
    (hclBr : cl '[' = false ∧ cl ']' = false) :
    PatternFacts (fun s =>
      if litCIPrefix pre s && cnt ≤ countLeading cl (s.drop pre.length) then
        some (pre.length + cnt)
      else none) := by
  constructor
  · intro s n h
    by_cases hc : (litCIPrefix pre s && decide (cnt ≤ countLeading cl (s.drop pre.length))) = true
    · simp only [hc, if_true, Option.some.injEq] at h
      simp only [Bool.and_eq_true, decide_eq_true_eq] at hc
      obtain ⟨hpre, hcnt⟩ := hc
      subst h
      have hlenpre := litCIPrefix_length pre s hpre
      have hcle : countLeading cl (s.drop pre.length) ≤ (s.drop pre.length).length :=
        countLeading_le _ _
      simp only [List.length_drop] at hcle
      refine ⟨hpos, by omega, ?_⟩
      intro k hk
      rcases Nat.lt_or_ge k pre.length with hkp | hkp
      · obtain ⟨c, hc1, hc2⟩ := litCIPrefix_get pre s hpre k hkp
        rw [hc1]
        constructor
        · intro heq
          simp only [Option.some.injEq] at heq
          subst heq
          rw [toLowerAscii_bracketL] at hc2
          exact ((hpreBr '[' (List.get?_mem hc2)).1) rfl
        · intro heq
          simp only [Option.some.injEq] at heq
          subst heq
          rw [toLowerAscii_bracketR] at hc2
          exact ((hpreBr ']' (List.get?_mem hc2)).2) rfl
      · have hklt : k - pre.length < countLeading cl (s.drop pre.length) := by omega
        obtain ⟨c, hc1, hc2⟩ := countLeading_get cl (s.drop pre.length) (k - pre.length) hklt
        rw [List.get?_drop] at hc1
        have hk2 : pre.length + (k - pre.length) = k := by omega
        rw [hk2] at hc1
        rw [hc1]
        constructor
        · intro heq
          simp only [Option.some.injEq] at heq
          subst heq
          rw [hclBr.1] at hc2
          exact Bool.false_ne_true hc2
        · intro heq
          simp only [Option.some.injEq] at heq
          subst heq
          rw [hclBr.2] at hc2
          exact Bool.false_ne_true hc2
    · simp only [Bool.not_eq_true] at hc
      simp [hc] at h
  · intro a b bb n h hna
    by_cases hcond : (litCIPrefix pre (a ++ b) &&
        decide (cnt ≤ countLeading cl ((a ++ b).drop pre.length))) = true
    · rw [if_pos hcond] at h
      simp only [Option.some.injEq] at h
      simp only [Bool.and_eq_true, decide_eq_true_eq] at hcond
      obtain ⟨hpre, hcnt⟩ := hcond
      subst h
      have hplen : pre.length ≤ a.length := by omega
      have hpre2 : litCIPrefix pre (a ++ bb) = true := by
        apply litCIPrefix_of_get
        intro j hj
        obtain ⟨c, hc1, hc2⟩ := litCIPrefix_get pre (a ++ b) hpre j hj
        rw [List.get?_append (by omega)] at hc1
        rw [List.get?_append (by omega), hc1]
        exact ⟨c, rfl, hc2⟩
      have hdropa : ∀ x : List Char, (a ++ x).drop pre.length = a.drop pre.length ++ x :=
        fun x => List.drop_append_of_le_length hplen
      have hlena : cnt ≤ (a.drop pre.length).length := by
        simp only [List.length_drop]; omega
      have hcnt2 : cnt ≤ countLeading cl ((a ++ bb).drop pre.length) := by
        rw [hdropa bb]
        rw [hdropa b, countLeading_append] at hcnt
        rw [countLeading_append]
        split_ifs with h1
        · rw [if_pos h1] at hcnt; exact hcnt
        · omega
      intro hnone
      rw [if_pos (by simp [hpre2, hcnt2])] at hnone
      exact Option.some_ne_none _ hnone
    · rw [if_neg hcond] at h
      exact absurd h (by simp)

theorem genCanStart (pre : List Char) (cl : Char → Bool) (cnt : Nat)
    (s : List Char) (n : Nat)
    (h : (if litCIPrefix pre s && cnt ≤ countLeading cl (s.drop pre.length) then
        some (pre.length + cnt) else none) = some n) (k : Nat) :
    litCICompat pre (s.take k) = true := by
  by_cases hcond : (litCIPrefix pre s &&
      decide (cnt ≤ countLeading cl (s.drop pre.length))) = true
  · simp only [Bool.and_eq_true, decide_eq_true_eq] at hcond
    obtain ⟨hpre, _⟩ := hcond
    unfold litCICompat
    apply litCIPrefix_of_get
    intro j hj
    have hlen1 : (pre.take (s.take k).length).length = min (s.take k).length pre.length := by
      simp [List.length_take, Nat.min_comm]
    rw [hlen1] at hj
    have hjp : j < pre.length := lt_of_lt_of_le hj (min_le_right _ _)
    have hju : j < (s.take k).length := lt_of_lt_of_le hj (min_le_left _ _)
    have hjk : j < k := by
      simp only [List.length_take] at hju
      omega
    obtain ⟨c, hc1, hc2⟩ := litCIPrefix_get pre s hpre j hjp
    exact ⟨c, by rw [List.get?_take hjk]; exact hc1, by rw [List.get?_take hju]; exact hc2⟩
  · simp [hcond] at h

theorem patternFactsSk : PatternFacts mlenSk :=
  genPatternFacts "sk-".toList isAlnumAscii 48 (by decide) (by decide) (by decide)

theorem patternFactsGhp : PatternFacts mlenGhp :=
  genPatternFacts "ghp_".toList isAlnumAscii 36 (by decide) (by decide) (by decide)

theorem patternFactsGlpat : PatternFacts mlenGlpat :=
  genPatternFacts "glpat-".toList classGitlab 20 (by decide) (by decide) (by decide)

theorem patternFactsAkia : PatternFacts mlenAkia :=
  genPatternFacts "akia".toList isAlnumAscii 16 (by decide) (by decide) (by decide)

theorem mlenB64_elim (s : List Char) (n : Nat) (h : mlenB64 s = some n) :
    40 ≤ countLeading classB64 s ∧
    n = countLeading classB64 s +
      min (countLeading (fun c => c = '=') (s.drop (countLeading classB64 s))) 2 := by
  simp only [mlenB64] at h
  split at h
  · simp only [Option.some.injEq] at h
    exact ⟨by assumption, h.symm⟩
  · exact absurd h (by simp)

theorem patternFactsB64 : PatternFacts mlenB64 := by
  constructor
  · intro s n h
    obtain ⟨hr, hn⟩ := mlenB64_elim s n h
    have hrle := countLeading_le classB64 s
    have hele := countLeading_le (fun c => c = '=') (s.drop (countLeading classB64 s))
    simp only [List.length_drop] at hele
    refine ⟨by omega, by omega, ?_⟩
    intro k hk
    rcases Nat.lt_or_ge k (countLeading classB64 s) with hkr | hkr
    · obtain ⟨c, hc1, hc2⟩ := countLeading_get classB64 s k hkr
      rw [hc1]
      constructor
      · intro heq; simp only [Option.some.injEq] at heq; subst heq
        exact absurd hc2 (by decide)
      · intro heq; simp only [Option.some.injEq] at heq; subst heq
        exact absurd hc2 (by decide)
    · have hklt : k - countLeading classB64 s <
          countLeading (fun c => c = '=') (s.drop (countLeading classB64 s)) := by omega
      obtain ⟨c, hc1, hc2⟩ := countLeading_get _ _ _ hklt
      rw [List.get?_drop] at hc1
      have hk2 : countLeading classB64 s + (k - countLeading classB64 s) = k := by omega
      rw [hk2] at hc1
      rw [hc1]
      simp only [decide_eq_true_eq] at hc2
      subst hc2
      constructor <;> intro heq <;> simp at heq
  · intro a b bb n h hna
    obtain ⟨hr, hn⟩ := mlenB64_elim _ n h
    have hrn : countLeading classB64 (a ++ b) ≤ n := by omega
    rw [countLeading_append] at hr hrn
    have hr2 : 40 ≤ countLeading classB64 (a ++ bb) := by
      rw [countLeading_append]
      split_ifs with h1
      · rw [if_pos h1] at hr; exact hr
      · rw [if_neg h1] at hr hrn
        have hcla := countLeading_le classB64 a
        omega
    intro hnone
    simp only [mlenB64] at hnone
    rw [if_pos hr2] at hnone
    exact Option.some_ne_none _ hnone

theorem canStartB64 (s : List Char) (n : Nat) (h : mlenB64 s = some n) (k : Nat) :
    startCompatB64 (s.take k) = true := by
  obtain ⟨hr, _⟩ := mlenB64_elim s n h
  have hrle := countLeading_le classB64 s
  unfold startCompatB64
  rw [countLeading_take]
  rcases Nat.lt_or_ge (min (countLeading classB64 s) k) 40 with hmin | hmin
  · have hk40 : k < 40 := by omega
    have hkmin : min (countLeading classB64 s) k = k := by omega
    have hlen : (s.take k).length = k := by
      simp only [List.length_take]
      omega
    simp [hkmin, hlen]
  · simp [hmin]

theorem mlenXox_elim (s : List Char) (n : Nat) (h : mlenXox s = some n) :
    ∃ c d t, s.drop 3 = c :: d :: t ∧
      litCIPrefix "xox".toList s = true ∧
      (toLowerAscii c = 'b' ∨ toLowerAscii c = 'a' ∨ toLowerAscii c = 'p' ∨
        toLowerAscii c = 'r' ∨ toLowerAscii c = 's') ∧ d = '-' ∧
      10 ≤ countLeading classSlack (s.drop 5) ∧
      n = 5 + min (countLeading classSlack (s.drop 5)) 48 := by
  simp only [mlenXox] at h
  split at h
  case isTrue hcond =>
    simp only [Bool.and_eq_true] at hcond
    obtain ⟨hpre, hcd⟩ := hcond
    split at hcd
    case h_1 c d t heq =>
      simp only [Bool.and_eq_true, Bool.or_eq_true, decide_eq_true_eq] at hcd
      split at h
      case isTrue h10 =>
        simp only [Option.some.injEq] at h
        exact ⟨c, d, t, heq, hpre, by tauto, hcd.2, h10, h.symm⟩
      case isFalse => exact absurd h (by simp)
    case h_2 => simp at hcd
  case isFalse => exact absurd h (by simp)

theorem get?_take_some {s : List Char} {k j : Nat} {ch : Char}
    (h : (s.take k).get? j = some ch) : j < k ∧ s.get? j = some ch := by
  have hj : j < k := by
    by_contra hj
    have hlen : (s.take k).length ≤ j := by
      simp only [List.length_take]
      omega
    rw [List.get?_eq_none.mpr hlen] at h
    exact absurd h (by simp)
  rw [List.get?_take hj] at h
  exact ⟨hj, h⟩

theorem patternFactsXox : PatternFacts mlenXox := by
  constructor
  · intro s n h
    obtain ⟨c, d, t, hdrop, hpre, hcls, hd, h10, hn⟩ := mlenXox_elim s n h
    have hlen5 : s.length = t.length + 5 := by
      have := congrArg List.length hdrop
      simp only [List.length_drop, List.length_cons] at this
      have h3 : 3 ≤ s.length := by
        by_contra hc
        have : s.drop 3 = [] := List.drop_eq_nil_of_le (by omega)
        rw [this] at hdrop
        exact absurd hdrop (by simp)
      omega
    have hrle := countLeading_le classSlack (s.drop 5)
    simp only [List.length_drop] at hrle
    refine ⟨by omega, by omega, ?_⟩
    intro k hk
    have hget3 : s.get? 3 = some c := by
      have : (s.drop 3).get? 0 = s.get? 3 := by
        rw [List.get?_drop]
      rw [hdrop] at this
      exact this.symm
    have hget4 : s.get? 4 = some d := by
      have : (s.drop 3).get? 1 = s.get? 4 := by
        rw [List.get?_drop]
      rw [hdrop] at this
      exact this.symm
    rcases Nat.lt_or_ge k 3 with hk3 | hk3
    · obtain ⟨ch, hc1, hc2⟩ := litCIPrefix_get _ s hpre k (by simpa using hk3)
      rw [hc1]
      constructor
      · intro heq; simp only [Option.some.injEq] at heq; subst heq
        rw [toLowerAscii_bracketL] at hc2
        have hmem : '[' ∈ "xox".toList := List.get?_mem hc2
        exact absurd hmem (by decide)
      · intro heq; simp only [Option.some.injEq] at heq; subst heq
        rw [toLowerAscii_bracketR] at hc2
        have hmem : ']' ∈ "xox".toList := List.get?_mem hc2
        exact absurd hmem (by decide)
    rcases Nat.lt_or_ge k 5 with hk5 | hk5
    · rcases Nat.lt_or_ge k 4 with hk4 | hk4
      · have hk3e : k = 3 := by omega
        subst hk3e
        rw [hget3]
        constructor
        · intro heq; simp only [Option.some.injEq] at heq; subst heq
          rcases hcls with h1 | h1 | h1 | h1 | h1 <;>
            (rw [toLowerAscii_bracketL] at h1; exact absurd h1 (by decide))
        · intro heq; simp only [Option.some.injEq] at heq; subst heq
          rcases hcls with h1 | h1 | h1 | h1 | h1 <;>
            (rw [toLowerAscii_bracketR] at h1; exact absurd h1 (by decide))
      · have hk4e : k = 4 := by omega
        subst hk4e
        rw [hget4, hd]
        constructor <;> (intro heq; simp only [Option.some.injEq] at heq; exact absurd heq (by decide))
    · have hklt : k - 5 < countLeading classSlack (s.drop 5) := by omega
      obtain ⟨ch, hc1, hc2⟩ := countLeading_get _ _ _ hklt
      rw [List.get?_drop] at hc1
      have hk2 : 5 + (k - 5) = k := by omega
      rw [hk2] at hc1
      rw [hc1]
      constructor
      · intro heq; simp only [Option.some.injEq] at heq; subst heq
        exact absurd hc2 (by decide)
      · intro heq; simp only [Option.some.injEq] at heq; subst heq
        exact absurd hc2 (by decide)
  · intro a b bb n h hna
    obtain ⟨c, d, t, hdrop, hpre, hcls, hd, h10, hn⟩ := mlenXox_elim _ n h
    have hmin10 : 10 ≤ min (countLeading classSlack ((a ++ b).drop 5)) 48 := by omega
    have ha15 : 15 ≤ a.length := by omega
    have h3a : (3 : Nat) ≤ a.length := by omega
    have h5a : (5 : Nat) ≤ a.length := by omega
    -- the 3-character prefix lies in `a`
    have hpre2 : litCIPrefix "xox".toList (a ++ bb) = true := by
      apply litCIPrefix_of_get
      intro j hj
      obtain ⟨ch, hc1, hc2⟩ := litCIPrefix_get _ _ hpre j hj
      simp only [List.length_take] at hj
      rw [List.get?_append (by simp at hj ⊢; omega)] at hc1
      rw [List.get?_append (by simp at hj ⊢; omega)]
      exact ⟨ch, hc1, hc2⟩
    -- the `[baprs]-` characters lie in `a`
    have hdropa3 : (a ++ b).drop 3 = a.drop 3 ++ b := List.drop_append_of_le_length h3a
    have hlen_a3 : 2 ≤ (a.drop 3).length := by
      simp only [List.length_drop]
      omega
    obtain ⟨c2, d2, t2, ha3pre⟩ : ∃ c2 d2 t2, a.drop 3 = c2 :: d2 :: t2 := by
      cases h1 : a.drop 3 with
      | nil => rw [h1] at hlen_a3; simp at hlen_a3
      | cons x xs =>
        cases h2 : xs with
        | nil => rw [h1, h2] at hlen_a3; simp at hlen_a3
        | cons y ys => exact ⟨x, y, ys, by simp [h1, h2]⟩
    have hcd2 : c2 = c ∧ d2 = d := by
      rw [hdropa3, ha3pre] at hdrop
      simp only [List.cons_append, List.cons.injEq] at hdrop
      exact ⟨hdrop.1, hdrop.2.1⟩
    have ha3 : a.drop 3 = c :: d :: t2 := by
      rw [ha3pre, hcd2.1, hcd2.2]
    -- the class span condition transfers
    have hdropa5 : ∀ x : List Char, (a ++ x).drop 5 = a.drop 5 ++ x :=
      fun x => List.drop_append_of_le_length h5a
    have hlen_a5 : min (countLeading classSlack ((a ++ b).drop 5)) 48 ≤ (a.drop 5).length := by
      simp only [List.length_drop]
      omega
    have h10bb : 10 ≤ countLeading classSlack ((a ++ bb).drop 5) := by
      rw [hdropa5 bb]
      rw [hdropa5 b, countLeading_append] at h10 hlen_a5
      rw [countLeading_append]
      split_ifs with h1
      · rw [if_pos h1] at h10; exact h10
      · rw [if_neg h1] at h10 hlen_a5
        have := countLeading_le classSlack (a.drop 5)
        omega
    -- assemble a match of `(a ++ bb)`
    intro hnone
    have ha3bb : (a ++ bb).drop 3 = c :: d :: (t2 ++ bb) := by
      rw [List.drop_append_of_le_length h3a, ha3]
      rfl
    simp only [mlenXox, ha3bb, hpre2, Bool.true_and] at hnone
    have hcls2 : (toLowerAscii c = 'b' || toLowerAscii c = 'a' || toLowerAscii c = 'p' ||
        toLowerAscii c = 'r' || toLowerAscii c = 's') = true := by
      simp only [Bool.or_eq_true, decide_eq_true_eq]
      tauto
    rw [hd] at hnone
    simp only [hcls2, decide_True, Bool.and_true, if_true] at hnone
    rw [if_pos h10bb] at hnone
    exact Option.some_ne_none _ hnone

theorem canStartXox (s : List Char) (n : Nat) (h : mlenXox s = some n) (k : Nat) :
    startCompatXox (s.take k) = true := by
  obtain ⟨c, d, t, hdrop, hpre, hcls, hd, h10, hn⟩ := mlenXox_elim s n h
  have hget3 : s.get? 3 = some c := by
    have h0 : (s.drop 3).get? 0 = s.get? 3 := by rw [List.get?_drop]
    rw [hdrop] at h0
    exact h0.symm
  have hget4 : s.get? 4 = some d := by
    have h0 : (s.drop 3).get? 1 = s.get? 4 := by rw [List.get?_drop]
    rw [hdrop] at h0
    exact h0.symm
  unfold startCompatXox
  simp only [Bool.and_eq_true]
  refine ⟨⟨⟨⟨?_, ?_⟩, ?_⟩, ?_⟩, ?_⟩
  · cases hx : (s.take k).get? 0 with
    | none => rfl
    | some ch =>
      obtain ⟨_, hs⟩ := get?_take_some hx
      obtain ⟨c0, hc1, hc2⟩ := litCIPrefix_get _ s hpre 0 (by decide)
      rw [hc1] at hs
      simp only [Option.some.injEq] at hs
      subst hs
      simp only [List.get?, Option.some.injEq] at hc2
      simp [hc2.symm]
  · cases hx : (s.take k).get? 1 with
    | none => rfl
    | some ch =>
      obtain ⟨_, hs⟩ := get?_take_some hx
      obtain ⟨c0, hc1, hc2⟩ := litCIPrefix_get _ s hpre 1 (by decide)
      rw [hc1] at hs
      simp only [Option.some.injEq] at hs
      subst hs
      simp only [List.get?, Option.some.injEq] at hc2
      simp [hc2.symm]
  · cases hx : (s.take k).get? 2 with
    | none => rfl
    | some ch =>
      obtain ⟨_, hs⟩ := get?_take_some hx
      obtain ⟨c0, hc1, hc2⟩ := litCIPrefix_get _ s hpre 2 (by decide)
      rw [hc1] at hs
      simp only [Option.some.injEq] at hs
      subst hs
      simp only [List.get?, Option.some.injEq] at hc2
      simp [hc2.symm]
  · cases hx : (s.take k).get? 3 with
    | none => rfl
    | some ch =>
      obtain ⟨_, hs⟩ := get?_take_some hx
      rw [hget3] at hs
      simp only [Option.some.injEq] at hs
      subst hs
      simp only [Bool.or_eq_true, decide_eq_true_eq]
      tauto
  · cases hx : (s.take k).get? 4 with
    | none => rfl
    | some ch =>
      obtain ⟨_, hs⟩ := get?_take_some hx
      rw [hget4] at hs
      simp only [Option.some.injEq] at hs
      subst hs
      simp [hd]

theorem k3All (mlI : List Char → Option Nat) (compat : List Char → Bool)
    (hcan : ∀ s n, mlI s = some n → ∀ k, compat (s.take k) = true)
    (hreps : ∀ rep ∈ allReps,
      ((List.range rep.length).all fun p => !(compat (rep.drop p))) = true) :
    ∀ rep ∈ allReps, ∀ p, p < rep.length → ∀ X,
      mlI (List.drop p rep ++ X) = none := by
  intro rep hrep p hp X
  cases h : mlI (List.drop p rep ++ X) with
  | none => rfl
  | some n =>
    exfalso
    have hc := hcan _ n h (List.drop p rep).length
    rw [List.take_left] at hc
    have hf := (List.all_eq_true.mp (hreps rep hrep)) p (List.mem_range.mpr hp)
    rw [hc] at hf
    exact absurd hf (by simp)

theorem repsCompatB64 : ∀ rep ∈ allReps,
    ((List.range rep.length).all fun p => !(startCompatB64 (rep.drop p))) = true := by
  decide

theorem repsCompatSk : ∀ rep ∈ allReps,
    ((List.range rep.length).all fun p => !(litCICompat "sk-".toList (rep.drop p))) = true := by
  decide

theorem repsCompatGhp : ∀ rep ∈ allReps,
    ((List.range rep.length).all fun p => !(litCICompat "ghp_".toList (rep.drop p))) = true := by
  decide

theorem repsCompatGlpat : ∀ rep ∈ allReps,
    ((List.range rep.length).all fun p => !(litCICompat "glpat-".toList (rep.drop p))) = true := by
  decide

theorem repsCompatXox : ∀ rep ∈ allReps,
    ((List.range rep.length).all fun p => !(startCompatXox (rep.drop p))) = true := by
  decide

theorem repsCompatAkia : ∀ rep ∈ allReps,
    ((List.range rep.length).all fun p => !(litCICompat "akia".toList (rep.drop p))) = true := by
  decide

theorem repsCompatDash : ∀ rep ∈ allReps,
    ((List.range rep.length).all fun p => !(compatHeadDash (rep.drop p))) = true := by
  decide

theorem canStartSk : ∀ s n, mlenSk s = some n → ∀ k,
    litCICompat "sk-".toList (s.take k) = true :=
  fun s n h k => genCanStart "sk-".toList isAlnumAscii 48 s n h k

theorem canStartGhp : ∀ s n, mlenGhp s = some n → ∀ k,
    litCICompat "ghp_".toList (s.take k) = true :=
  fun s n h k => genCanStart "ghp_".toList isAlnumAscii 36 s n h k

theorem canStartGlpat : ∀ s n, mlenGlpat s = some n → ∀ k,
    litCICompat "glpat-".toList (s.take k) = true :=
  fun s n h k => genCanStart "glpat-".toList classGitlab 20 s n h k

theorem canStartAkia : ∀ s n, mlenAkia s = some n → ∀ k,
    litCICompat "akia".toList (s.take k) = true :=
  fun s n h k => genCanStart "akia".toList isAlnumAscii 16 s n h k

theorem k3B64 : ∀ rep ∈ allReps, ∀ p, p < rep.length → ∀ X,
    mlenB64 (List.drop p rep ++ X) = none :=
  k3All mlenB64 startCompatB64 canStartB64 repsCompatB64

theorem k3Sk : ∀ rep ∈ allReps, ∀ p, p < rep.length → ∀ X,
    mlenSk (List.drop p rep ++ X) = none :=
  k3All mlenSk (litCICompat "sk-".toList) canStartSk repsCompatSk

theorem k3Ghp : ∀ rep ∈ allReps, ∀ p, p < rep.length → ∀ X,
    mlenGhp (List.drop p rep ++ X) = none :=
  k3All mlenGhp (litCICompat "ghp_".toList) canStartGhp repsCompatGhp

theorem k3Glpat : ∀ rep ∈ allReps, ∀ p, p < rep.length → ∀ X,
    mlenGlpat (List.drop p rep ++ X) = none :=
  k3All mlenGlpat (litCICompat "glpat-".toList) canStartGlpat repsCompatGlpat

theorem k3Xox : ∀ rep ∈ allReps, ∀ p, p < rep.length → ∀ X,
    mlenXox (List.drop p rep ++ X) = none :=
  k3All mlenXox startCompatXox canStartXox repsCompatXox

theorem k3Akia : ∀ rep ∈ allReps, ∀ p, p < rep.length → ∀ X,
    mlenAkia (List.drop p rep ++ X) = none :=
  k3All mlenAkia (litCICompat "akia".toList) canStartAkia repsCompatAkia

/-! ## Facts about the PEM matcher -/

theorem beginHdrLen_elim (s : List Char) (h : Nat) (hh : beginHdrLen s = some h) :
    "-----BEGIN ".toList.isPrefixOf s = true ∧
    1 ≤ countLeading classCapsSpace (s.drop 11) ∧
    "-----".toList.isPrefixOf
      (s.drop (11 + countLeading classCapsSpace (s.drop 11))) = true ∧
    h = 11 + countLeading classCapsSpace (s.drop 11) + 5 := by
  simp only [beginHdrLen] at hh
  split at hh
  case isTrue hpre =>
    split at hh
    case isTrue hcond =>
      simp only [Option.some.injEq] at hh
      simp only [Bool.and_eq_true, decide_eq_true_eq] at hcond
      exact ⟨hpre, hcond.1, hcond.2, hh.symm⟩
    case isFalse => exact absurd hh (by simp)
  case isFalse => exact absurd hh (by simp)

theorem endBlockLen_elim (s : List Char) (e : Nat) (he : endBlockLen s = some e) :
    "-----END ".toList.isPrefixOf s = true ∧
    1 ≤ countLeading classCapsSpace (s.drop 9) ∧
    "-----".toList.isPrefixOf
      (s.drop (9 + countLeading classCapsSpace (s.drop 9))) = true ∧
    e = 9 + countLeading classCapsSpace (s.drop 9) + 5 := by
  simp only [endBlockLen] at he
  split at he
  case isTrue hpre =>
    split at he
    case isTrue hcond =>
      simp only [Option.some.injEq] at he
      simp only [Bool.and_eq_true, decide_eq_true_eq] at hcond
      exact ⟨hpre, hcond.1, hcond.2, he.symm⟩
    case isFalse => exact absurd he (by simp)
  case isFalse => exact absurd he (by simp)

theorem findEnd_some (s : List Char) (q e : Nat) (h : findEnd s = some (q, e)) :
    endBlockLen (s.drop q) = some e := by
  induction s generalizing q with
  | nil => simp [findEnd] at h
  | cons c cs ih =>
    simp only [findEnd] at h
    cases h1 : endBlockLen (c :: cs) with
    | some e2 =>
      rw [h1] at h
      simp only [Option.some.injEq, Prod.mk.injEq] at h
      obtain ⟨hq, he⟩ := h
      subst hq; subst he
      simpa using h1
    | none =>
      rw [h1] at h
      simp only [Option.map_eq_some'] at h
      obtain ⟨⟨q2, e2⟩, hfe, heq⟩ := h
      simp only [Prod.mk.injEq] at heq
      obtain ⟨hq, he⟩ := heq
      subst he
      have := ih q2 hfe
      rw [← hq]
      simpa using this

theorem findEnd_isSome_of (s : List Char) (p e : Nat)
    (h : endBlockLen (s.drop p) = some e) : (findEnd s).isSome := by
  induction s generalizing p with
  | nil =>
    simp only [List.drop_nil] at h
    have hnil : endBlockLen [] = none := by decide
    rw [hnil] at h
    exact absurd h (by simp)
  | cons c cs ih =>
    cases p with
    | zero =>
      simp only [List.drop_zero] at h
      simp [findEnd, h]
    | succ p =>
      simp only [List.drop_succ_cons] at h
      simp only [findEnd]
      cases h1 : endBlockLen (c :: cs) with
      | some e2 => simp
      | none =>
        have := ih p h
        simp only [Option.isSome_map']
        exact this

theorem mlenPem_elim (s : List Char) (n : Nat) (h : mlenPem s = some n) :
    ∃ hd q e, beginHdrLen s = some hd ∧ findEnd (s.drop hd) = some (q, e) ∧
      n = hd + q + e := by
  cases hb : beginHdrLen s with
  | none => simp [mlenPem, hb] at h
  | some hd =>
    cases he : findEnd (s.drop hd) with
    | none => simp [mlenPem, hb, he] at h
    | some qe =>
      obtain ⟨q, e⟩ := qe
      simp only [mlenPem, hb, he, Option.some.injEq] at h
      exact ⟨hd, q, e, rfl, he, h.symm⟩

theorem mlenPem_pos (s : List Char) (n : Nat) (h : mlenPem s = some n) : 1 ≤ n := by
  obtain ⟨hd, q, e, hb, _, hn⟩ := mlenPem_elim s n h
  obtain ⟨_, _, _, hhd⟩ := beginHdrLen_elim s hd hb
  omega

theorem canStartPemBegin (s : List Char) (hd : Nat) (hb : beginHdrLen s = some hd)
    (k : Nat) : compatHeadDash (s.take k) = true := by
  obtain ⟨hpre, _, _, _⟩ := beginHdrLen_elim s hd hb
  unfold compatHeadDash
  cases hx : (s.take k).head? with
  | none => rfl
  | some ch =>
    have hget : (s.take k).get? 0 = some ch := by
      cases hsk : s.take k with
      | nil => rw [hsk] at hx; simp at hx
      | cons a l => rw [hsk] at hx; simp at hx; simp [hsk, hx]
    obtain ⟨_, hs0⟩ := get?_take_some hget
    have := isPrefixOf_get _ s hpre 0 (by decide)
    rw [hs0] at this
    simp only [List.get?] at this
    simp only [Option.some.injEq] at this
    simp [this]

theorem canStartPem (s : List Char) (n : Nat) (h : mlenPem s = some n) (k : Nat) :
    compatHeadDash (s.take k) = true := by
  obtain ⟨hd, q, e, hb, _, _⟩ := mlenPem_elim s n h
  exact canStartPemBegin s hd hb k

theorem canStartEndBlock (s : List Char) (e : Nat) (he : endBlockLen s = some e)
    (k : Nat) : compatHeadDash (s.take k) = true := by
  obtain ⟨hpre, _, _, _⟩ := endBlockLen_elim s e he
  unfold compatHeadDash
  cases hx : (s.take k).head? with
  | none => rfl
  | some ch =>
    have hget : (s.take k).get? 0 = some ch := by
      cases hsk : s.take k with
      | nil => rw [hsk] at hx; simp at hx
      | cons a l => rw [hsk] at hx; simp at hx; simp [hsk, hx]
    obtain ⟨_, hs0⟩ := get?_take_some hget
    have := isPrefixOf_get _ s hpre 0 (by decide)
    rw [hs0] at this
    simp only [List.get?] at this
    simp only [Option.some.injEq] at this
    simp [this]

theorem k3Pem : ∀ rep ∈ allReps, ∀ p, p < rep.length → ∀ X,
    mlenPem (List.drop p rep ++ X) = none :=
  k3All mlenPem compatHeadDash canStartPem repsCompatDash

theorem k3End : ∀ rep ∈ allReps, ∀ p, p < rep.length → ∀ X,
    endBlockLen (List.drop p rep ++ X) = none :=
  k3All endBlockLen compatHeadDash canStartEndBlock repsCompatDash

theorem take_eq_get (s t : List Char) (m j : Nat) (h : s.take m = t.take m)
    (hj : j < m) : s.get? j = t.get? j := by
  have h1 : (s.take m).get? j = s.get? j := List.get?_take hj
  have h2 : (t.take m).get? j = t.get? j := List.get?_take hj
  rw [← h1, ← h2, h]

theorem countLeading_le_pos (p : Char → Bool) (s : List Char) (m : Nat) (c : Char)
    (hc : s.get? m = some c) (hpc : p c = false) : countLeading p s ≤ m := by
  by_contra h
  obtain ⟨c2, hc2, hp2⟩ := countLeading_get p s m (by omega)
  rw [hc] at hc2
  simp only [Option.some.injEq] at hc2
  subst hc2
  rw [hpc] at hp2
  exact absurd hp2 (by simp)

theorem isPrefixOf_length {lit s : List Char} (h : lit.isPrefixOf s = true) :
    lit.length ≤ s.length :=
  (List.isPrefixOf_iff_prefix.mp h).length_le

theorem hdrChars (lit s : List Char) (r : Nat)
    (hlitBr : ∀ c ∈ lit, c ≠ '[')
    (hpre : lit.isPrefixOf s = true)
    (hr : r = countLeading classCapsSpace (s.drop lit.length))
    (hdash : "-----".toList.isPrefixOf (s.drop (lit.length + r)) = true) :
    lit.length + r + 5 ≤ s.length ∧
    ∀ k, k < lit.length + r + 5 → s.get? k ≠ some '[' := by
  have hlen1 : lit.length ≤ s.length := isPrefixOf_length hpre
  have hlen2 : (5 : Nat) ≤ (s.drop (lit.length + r)).length := by
    have := isPrefixOf_length hdash
    simpa using this
  simp only [List.length_drop] at hlen2
  have hrle := countLeading_le classCapsSpace (s.drop lit.length)
  rw [← hr] at hrle
  simp only [List.length_drop] at hrle
  refine ⟨by omega, ?_⟩
  intro k hk heq
  rcases Nat.lt_or_ge k lit.length with hk1 | hk1
  · have := isPrefixOf_get lit s hpre k hk1
    rw [heq] at this
    exact absurd this.symm (fun hmem => hlitBr '[' (List.get?_mem hmem) rfl)
  rcases Nat.lt_or_ge k (lit.length + r) with hk2 | hk2
  · have hklt : k - lit.length < countLeading classCapsSpace (s.drop lit.length) := by omega
    obtain ⟨c, hc1, hc2⟩ := countLeading_get _ _ _ hklt
    rw [List.get?_drop] at hc1
    have hke : lit.length + (k - lit.length) = k := by omega
    rw [hke] at hc1
    rw [heq] at hc1
    simp only [Option.some.injEq] at hc1
    rw [← hc1] at hc2
    exact absurd hc2 (by decide)
  · have hklt : k - (lit.length + r) < 5 := by omega
    have := isPrefixOf_get _ _ hdash (k - (lit.length + r)) (by simpa using hklt)
    rw [List.get?_drop] at this
    have hke : lit.length + r + (k - (lit.length + r)) = k := by omega
    rw [hke] at this
    rw [heq] at this
    have hdc : "-----".toList.get? (k - (lit.length + r)) = some '-' := by
      interval_cases h5 : (k - (lit.length + r)) <;> simp_all <;> decide
    rw [hdc] at this
    exact absurd this (by simp)

theorem hdrDet (lit s t : List Char) (r : Nat)
    (hpre : lit.isPrefixOf s = true)
    (hr : r = countLeading classCapsSpace (s.drop lit.length))
    (hdash : "-----".toList.isPrefixOf (s.drop (lit.length + r)) = true)
    (htake : s.take (lit.length + r + 5) = t.take (lit.length + r + 5)) :
    lit.isPrefixOf t = true ∧
    countLeading classCapsSpace (t.drop lit.length) = r ∧
    "-----".toList.isPrefixOf (t.drop (lit.length + r)) = true := by
  have hget : ∀ j, j < lit.length + r + 5 → s.get? j = t.get? j :=
    fun j hj => take_eq_get s t _ j htake hj
  refine ⟨?_, ?_, ?_⟩
  · apply isPrefixOf_of_get
    intro j hj
    rw [← hget j (by omega)]
    exact isPrefixOf_get lit s hpre j hj
  · have hge : r ≤ countLeading classCapsSpace (t.drop lit.length) := by
      apply countLeading_ge
      intro k hk
      obtain ⟨c, hc1, hc2⟩ := countLeading_get classCapsSpace (s.drop lit.length) k (by omega)
      rw [List.get?_drop] at hc1
      refine ⟨c, ?_, hc2⟩
      rw [List.get?_drop, ← hget (lit.length + k) (by omega)]
      exact hc1
    have hle : countLeading classCapsSpace (t.drop lit.length) ≤ r := by
      have hdashget := isPrefixOf_get _ _ hdash 0 (by decide)
      rw [List.get?_drop] at hdashget
      have h0 : "-----".toList.get? 0 = some '-' := by decide
      rw [h0] at hdashget
      apply countLeading_le_pos classCapsSpace (t.drop lit.length) r '-'
      · rw [List.get?_drop, ← hget (lit.length + r) (by omega)]
        simpa using hdashget
      · decide
    omega
  · apply isPrefixOf_of_get
    intro j hj
    have hj5 : j < 5 := by simpa using hj
    rw [List.get?_drop, ← hget (lit.length + r + j) (by omega)]
    have := isPrefixOf_get _ _ hdash j hj
    rw [List.get?_drop] at this
    exact this

theorem beginHdr_chars (s : List Char) (hd : Nat) (hb : beginHdrLen s = some hd) :
    hd ≤ s.length ∧ ∀ k, k < hd → s.get? k ≠ some '[' := by
  obtain ⟨hpre, h1r, hdash, hhd⟩ := beginHdrLen_elim s hd hb
  have hL : ("-----BEGIN ".toList : List Char).length = 11 := by decide
  obtain ⟨hle, hch⟩ := hdrChars "-----BEGIN ".toList s
    (countLeading classCapsSpace (s.drop 11)) (by decide) hpre (by rw [hL]) (by rw [hL]; exact hdash)
  rw [hL] at hle hch
  exact ⟨by omega, by rw [hhd]; exact hch⟩

theorem beginHdr_det (s t : List Char) (hd : Nat) (hb : beginHdrLen s = some hd)
    (htake : s.take hd = t.take hd) : beginHdrLen t = some hd := by
  obtain ⟨hpre, h1r, hdash, hhd⟩ := beginHdrLen_elim s hd hb
  have hL : ("-----BEGIN ".toList : List Char).length = 11 := by decide
  obtain ⟨hpre_t, hcnt_t, hdash_t⟩ := hdrDet "-----BEGIN ".toList s t
    (countLeading classCapsSpace (s.drop 11)) hpre (by rw [hL]) (by rw [hL]; exact hdash)
    (by rw [hL, ← hhd]; exact htake)
  rw [hL] at hcnt_t hdash_t
  simp only [beginHdrLen, hpre_t, if_true, hcnt_t]
  rw [if_pos ?hc]
  case hc => simp only [Bool.and_eq_true, decide_eq_true_eq]; exact ⟨h1r, hdash_t⟩
  rw [hhd]

theorem endBlock_chars (s : List Char) (e : Nat) (he : endBlockLen s = some e) :
    e ≤ s.length ∧ ∀ k, k < e → s.get? k ≠ some '[' := by
  obtain ⟨hpre, h1r, hdash, hee⟩ := endBlockLen_elim s e he
  have hL : ("-----END ".toList : List Char).length = 9 := by decide
  obtain ⟨hle, hch⟩ := hdrChars "-----END ".toList s
    (countLeading classCapsSpace (s.drop 9)) (by decide) hpre (by rw [hL]) (by rw [hL]; exact hdash)
  rw [hL] at hle hch
  exact ⟨by omega, by rw [hee]; exact hch⟩

theorem endBlock_det (s t : List Char) (e : Nat) (he : endBlockLen s = some e)
    (htake : s.take e = t.take e) : endBlockLen t = some e := by
  obtain ⟨hpre, h1r, hdash, hee⟩ := endBlockLen_elim s e he
  have hL : ("-----END ".toList : List Char).length = 9 := by decide
  obtain ⟨hpre_t, hcnt_t, hdash_t⟩ := hdrDet "-----END ".toList s t
    (countLeading classCapsSpace (s.drop 9)) hpre (by rw [hL]) (by rw [hL]; exact hdash)
    (by rw [hL, ← hee]; exact htake)
  rw [hL] at hcnt_t hdash_t
  simp only [endBlockLen, hpre_t, if_true, hcnt_t]
  rw [if_pos ?hc]
  case hc => simp only [Bool.and_eq_true, decide_eq_true_eq]; exact ⟨h1r, hdash_t⟩
  rw [hee]

theorem endIn_of_drop (t : List Char) (m : Nat) (h : EndIn (List.drop m t)) :
    EndIn t := by
  obtain ⟨p, e, hp⟩ := h
  rw [List.drop_drop] at hp
  exact ⟨m + p, e, hp⟩

theorem repPem_mem : "[REDACTED_PRIVATE_KEY]".toList ∈ allReps := by decide

theorem repPem_head : ("[REDACTED_PRIVATE_KEY]".toList : List Char).head? = some '[' := by
  decide

theorem drop_len_append (A B : List Char) (m : Nat) (hm : A.length = m) :
    (A ++ B).drop m = B := by
  subst hm
  exact List.drop_left A B

theorem endBlockLen_nil : endBlockLen [] = none := by decide

theorem endIn_lift : ∀ (f : Nat) (t : List Char), t.length ≤ f →
    EndIn (subRun mlenPem "[REDACTED_PRIVATE_KEY]".toList t) → EndIn t := by
  intro f
  induction f with
  | zero =>
    intro t hf h
    have ht : t = [] := List.eq_nil_of_length_eq_zero (by omega)
    subst ht
    obtain ⟨p, e, hp⟩ := h
    rw [subRun_nil] at hp
    simp only [List.drop_nil] at hp
    rw [endBlockLen_nil] at hp
    exact absurd hp (by simp)
  | succ f ih =>
    intro t hf h
    cases t with
    | nil =>
      obtain ⟨p, e, hp⟩ := h
      rw [subRun_nil] at hp
      simp only [List.drop_nil] at hp
      rw [endBlockLen_nil] at hp
      exact absurd hp (by simp)
    | cons c cs =>
      cases hml : mlenPem (c :: cs) with
      | some n =>
        rw [subRun_cons_some hml] at h
        obtain ⟨p, e, hp⟩ := h
        rcases Nat.lt_or_ge p ("[REDACTED_PRIVATE_KEY]".toList : List Char).length with hplt | hpge
        · rw [List.drop_append_of_le_length (Nat.le_of_lt hplt)] at hp
          rw [k3End _ repPem_mem p hplt _] at hp
          exact absurd hp (by simp)
        · have hsplit : (("[REDACTED_PRIVATE_KEY]".toList : List Char) ++
              subRun mlenPem "[REDACTED_PRIVATE_KEY]".toList (cs.drop (n - 1))).drop p =
              (subRun mlenPem "[REDACTED_PRIVATE_KEY]".toList (cs.drop (n - 1))).drop
                (p - ("[REDACTED_PRIVATE_KEY]".toList : List Char).length) := by
            have h1 : p = ("[REDACTED_PRIVATE_KEY]".toList : List Char).length +
                (p - ("[REDACTED_PRIVATE_KEY]".toList : List Char).length) := by omega
            conv_lhs => rw [h1]
            rw [← List.drop_drop, List.drop_left]
          rw [hsplit] at hp
          have hin : EndIn (subRun mlenPem "[REDACTED_PRIVATE_KEY]".toList (cs.drop (n - 1))) :=
            ⟨_, _, hp⟩
          have hcs : EndIn (cs.drop (n - 1)) := by
            apply ih (cs.drop (n - 1)) ?_ hin
            simp only [List.length_drop]
            simp only [List.length_cons] at hf
            omega
          have h1 : EndIn cs := endIn_of_drop cs (n - 1) hcs
          exact endIn_of_drop (c :: cs) 1 (by simpa using h1)
      | none =>
        rw [subRun_cons_none hml] at h
        obtain ⟨p, e, hp⟩ := h
        cases p with
        | succ p =>
          simp only [List.drop_succ_cons] at hp
          have hcs : EndIn cs := by
            apply ih cs (by simp at hf; omega)
            exact ⟨p, e, hp⟩
          exact endIn_of_drop (c :: cs) 1 (by simpa using hcs)
        | zero =>
          simp only [List.drop_zero] at hp
          have hform : c :: subRun mlenPem "[REDACTED_PRIVATE_KEY]".toList cs =
              subRun mlenPem "[REDACTED_PRIVATE_KEY]".toList (c :: cs) :=
            (subRun_cons_none hml).symm
          rw [hform] at hp
          obtain ⟨hele, hch⟩ := endBlock_chars _ e hp
          have htake := subRun_take_agree mlenPem "[REDACTED_PRIVATE_KEY]".toList
            repPem_head (c :: cs) e hch
          have het : endBlockLen (c :: cs) = some e :=
            endBlock_det _ _ e hp htake
          exact ⟨0, e, by simpa using het⟩

/-- The PEM substitution leaves no PEM match in its output: a surviving
BEGIN header would sit on remnant text, and a later END block would also
sit on remnant text, so the original text already had a match at the
header's position and the scanner would have consumed it. -/
theorem pem_A7 : ∀ (f : Nat) (t : List Char), t.length ≤ f →
    NoMatch mlenPem (subRun mlenPem "[REDACTED_PRIVATE_KEY]".toList t) := by
  intro f
  induction f with
  | zero =>
    intro t hf p
    have ht : t = [] := List.eq_nil_of_length_eq_zero (by omega)
    subst ht
    rw [subRun_nil]
    simp only [List.drop_nil]
    decide
  | succ f ih =>
    intro t hf
    cases t with
    | nil =>
      intro p
      rw [subRun_nil]
      simp only [List.drop_nil]
      decide
    | cons c cs =>
      cases hml : mlenPem (c :: cs) with
      | some n =>
        rw [subRun_cons_some hml]
        intro p
        rcases Nat.lt_or_ge p ("[REDACTED_PRIVATE_KEY]".toList : List Char).length with hplt | hpge
        · rw [List.drop_append_of_le_length (Nat.le_of_lt hplt)]
          exact k3Pem _ repPem_mem p hplt _
        · have hsplit : (("[REDACTED_PRIVATE_KEY]".toList : List Char) ++
              subRun mlenPem "[REDACTED_PRIVATE_KEY]".toList (cs.drop (n - 1))).drop p =
              (subRun mlenPem "[REDACTED_PRIVATE_KEY]".toList (cs.drop (n - 1))).drop
                (p - ("[REDACTED_PRIVATE_KEY]".toList : List Char).length) := by
            have h1 : p = ("[REDACTED_PRIVATE_KEY]".toList : List Char).length +
                (p - ("[REDACTED_PRIVATE_KEY]".toList : List Char).length) := by omega
            conv_lhs => rw [h1]
            rw [← List.drop_drop, List.drop_left]
          rw [hsplit]
          apply ih (cs.drop (n - 1))
          simp only [List.length_drop]
          simp only [List.length_cons] at hf
          omega
      | none =>
        rw [subRun_cons_none hml]
        intro p
        cases p with
        | succ p =>
          simp only [List.drop_succ_cons]
          exact ih cs (by simp at hf; omega) p
        | zero =>
          simp only [List.drop_zero]
          cases h2 : mlenPem (c :: subRun mlenPem "[REDACTED_PRIVATE_KEY]".toList cs) with
          | none => rfl
          | some n =>
            exfalso
            have hform : c :: subRun mlenPem "[REDACTED_PRIVATE_KEY]".toList cs =
                subRun mlenPem "[REDACTED_PRIVATE_KEY]".toList (c :: cs) :=
              (subRun_cons_none hml).symm
            rw [hform] at h2
            obtain ⟨hd, q, e, hb, hfe, hn⟩ := mlenPem_elim _ n h2
            obtain ⟨hdle, hdch⟩ := beginHdr_chars _ hd hb
            have htake := subRun_take_agree mlenPem "[REDACTED_PRIVATE_KEY]".toList
              repPem_head (c :: cs) hd hdch
            have hbt : beginHdrLen (c :: cs) = some hd := beginHdr_det _ _ hd hb htake
            have hdlen : hd ≤ (c :: cs).length := by
              have h3 : ((c :: cs).take hd).length = hd := by
                rw [← htake]
                simp only [List.length_take]
                omega
              simp only [List.length_take] at h3
              omega
            have hsplit := subRun_split mlenPem "[REDACTED_PRIVATE_KEY]".toList
              repPem_head hd (c :: cs) hdch
            have hdropo : (subRun mlenPem "[REDACTED_PRIVATE_KEY]".toList (c :: cs)).drop hd =
                subRun mlenPem "[REDACTED_PRIVATE_KEY]".toList ((c :: cs).drop hd) := by
              rw [hsplit]
              apply drop_len_append
              simp only [List.length_take]
              omega
            have hendo : EndIn ((subRun mlenPem "[REDACTED_PRIVATE_KEY]".toList (c :: cs)).drop hd) :=
              ⟨q, e, findEnd_some _ q e hfe⟩
            rw [hdropo] at hendo
            have hendt : EndIn ((c :: cs).drop hd) :=
              endIn_lift ((c :: cs).drop hd).length _ (le_refl _) hendo
            obtain ⟨p2, e2, hp2⟩ := hendt
            have hfes : (findEnd ((c :: cs).drop hd)).isSome :=
              findEnd_isSome_of _ p2 e2 hp2
            have : mlenPem (c :: cs) ≠ none := by
              simp only [mlenPem, hbt]
              cases hfe2 : findEnd ((c :: cs).drop hd) with
              | none => rw [hfe2] at hfes; simp at hfes
              | some qe2 => obtain ⟨q2, e2b⟩ := qe2; simp
            exact this hml

/-! ## Assembly of the idempotence proof -/

/-- A pass of any substitution stage preserves an established absence of
matches of a bracket-free, extension-stable pattern. -/
theorem noMatch_step (ml mlI : List Char → Option Nat) (rep : List Char)
    (hrep : rep.head? = some '[')
    (hmlpos : ∀ s n, ml s = some n → 1 ≤ n)
    (hK : PatternFacts mlI)
    (hk3 : ∀ p, p < rep.length → ∀ X, mlI (List.drop p rep ++ X) = none)
    (t : List Char) (h : NoMatch mlI t) :
    NoMatch mlI (subRun ml rep t) :=
  subRun_preserves_noMatch ml mlI rep hrep hmlpos hK hk3 t.length t
    (Nat.le_refl _) (fun p _ => h p)

/-- A bracket-free, extension-stable pattern has no match left in the
output of its own substitution stage. -/
theorem noMatch_start (mlI : List Char → Option Nat) (rep : List Char)
    (hrep : rep.head? = some '[')
    (hK : PatternFacts mlI)
    (hk3 : ∀ p, p < rep.length → ∀ X, mlI (List.drop p rep ++ X) = none)
    (t : List Char) :
    NoMatch mlI (subRun mlI rep t) :=
  subRun_preserves_noMatch mlI mlI rep hrep
    (fun s n hs => ((hK.k1 s n hs).1)) hK hk3 t.length t
    (Nat.le_refl _) (fun _ hp => hp)

/-- `redactList` unfolded to the seven substitution stages in table
order. -/
theorem redactList_eq (s : List Char) : redactList s =
    subRun mlenPem "[REDACTED_PRIVATE_KEY]".toList
      (subRun mlenAkia "[REDACTED_AWS_KEY]".toList
        (subRun mlenXox "[REDACTED_SLACK_TOKEN]".toList
          (subRun mlenGlpat "[REDACTED_GITLAB_TOKEN]".toList
            (subRun mlenGhp "[REDACTED_GITHUB_TOKEN]".toList
              (subRun mlenSk "[REDACTED_API_KEY]".toList
                (subRun mlenB64 "[REDACTED_TOKEN]".toList s)))))) := rfl

theorem noMatchB64_redact (s : List Char) : NoMatch mlenB64 (redactList s) := by
  rw [redactList_eq]
  apply noMatch_step mlenPem mlenB64 _ (by decide) mlenPem_pos patternFactsB64
    (k3B64 _ (by decide))
  apply noMatch_step mlenAkia mlenB64 _ (by decide)
    (fun s n hs => (patternFactsAkia.k1 s n hs).1) patternFactsB64 (k3B64 _ (by decide))
  apply noMatch_step mlenXox mlenB64 _ (by decide)
    (fun s n hs => (patternFactsXox.k1 s n hs).1) patternFactsB64 (k3B64 _ (by decide))
  apply noMatch_step mlenGlpat mlenB64 _ (by decide)
    (fun s n hs => (patternFactsGlpat.k1 s n hs).1) patternFactsB64 (k3B64 _ (by decide))
  apply noMatch_step mlenGhp mlenB64 _ (by decide)
    (fun s n hs => (patternFactsGhp.k1 s n hs).1) patternFactsB64 (k3B64 _ (by decide))
  apply noMatch_step mlenSk mlenB64 _ (by decide)
    (fun s n hs => (patternFactsSk.k1 s n hs).1) patternFactsB64 (k3B64 _ (by decide))
  exact noMatch_start mlenB64 _ (by decide) patternFactsB64 (k3B64 _ (by decide)) s

theorem noMatchSk_redact (s : List Char) : NoMatch mlenSk (redactList s) := by
  rw [redactList_eq]
  apply noMatch_step mlenPem mlenSk _ (by decide) mlenPem_pos patternFactsSk
    (k3Sk _ (by decide))
  apply noMatch_step mlenAkia mlenSk _ (by decide)
    (fun s n hs => (patternFactsAkia.k1 s n hs).1) patternFactsSk (k3Sk _ (by decide))
  apply noMatch_step mlenXox mlenSk _ (by decide)
    (fun s n hs => (patternFactsXox.k1 s n hs).1) patternFactsSk (k3Sk _ (by decide))
  apply noMatch_step mlenGlpat mlenSk _ (by decide)
    (fun s n hs => (patternFactsGlpat.k1 s n hs).1) patternFactsSk (k3Sk _ (by decide))
  apply noMatch_step mlenGhp mlenSk _ (by decide)
    (fun s n hs => (patternFactsGhp.k1 s n hs).1) patternFactsSk (k3Sk _ (by decide))
  exact noMatch_start mlenSk _ (by decide) patternFactsSk (k3Sk _ (by decide)) _

theorem noMatchGhp_redact (s : List Char) : NoMatch mlenGhp (redactList s) := by
  rw [redactList_eq]
  apply noMatch_step mlenPem mlenGhp _ (by decide) mlenPem_pos patternFactsGhp
    (k3Ghp _ (by decide))
  apply noMatch_step mlenAkia mlenGhp _ (by decide)
    (fun s n hs => (patternFactsAkia.k1 s n hs).1) patternFactsGhp (k3Ghp _ (by decide))
  apply noMatch_step mlenXox mlenGhp _ (by decide)
    (fun s n hs => (patternFactsXox.k1 s n hs).1) patternFactsGhp (k3Ghp _ (by decide))
  apply noMatch_step mlenGlpat mlenGhp _ (by decide)
    (fun s n hs => (patternFactsGlpat.k1 s n hs).1) patternFactsGhp (k3Ghp _ (by decide))
  exact noMatch_start mlenGhp _ (by decide) patternFactsGhp (k3Ghp _ (by decide)) _

theorem noMatchGlpat_redact (s : List Char) : NoMatch mlenGlpat (redactList s) := by
  rw [redactList_eq]
  apply noMatch_step mlenPem mlenGlpat _ (by decide) mlenPem_pos patternFactsGlpat
    (k3Glpat _ (by decide))
  apply noMatch_step mlenAkia mlenGlpat _ (by decide)
    (fun s n hs => (patternFactsAkia.k1 s n hs).1) patternFactsGlpat (k3Glpat _ (by decide))
  apply noMatch_step mlenXox mlenGlpat _ (by decide)
    (fun s n hs => (patternFactsXox.k1 s n hs).1) patternFactsGlpat (k3Glpat _ (by decide))
  exact noMatch_start mlenGlpat _ (by decide) patternFactsGlpat (k3Glpat _ (by decide)) _

theorem noMatchXox_redact (s : List Char) : NoMatch mlenXox (redactList s) := by
  rw [redactList_eq]
  apply noMatch_step mlenPem mlenXox _ (by decide) mlenPem_pos patternFactsXox
    (k3Xox _ (by decide))
  apply noMatch_step mlenAkia mlenXox _ (by decide)
    (fun s n hs => (patternFactsAkia.k1 s n hs).1) patternFactsXox (k3Xox _ (by decide))
  exact noMatch_start mlenXox _ (by decide) patternFactsXox (k3Xox _ (by decide)) _

theorem noMatchAkia_redact (s : List Char) : NoMatch mlenAkia (redactList s) := by
  rw [redactList_eq]
  apply noMatch_step mlenPem mlenAkia _ (by decide) mlenPem_pos patternFactsAkia
    (k3Akia _ (by decide))
  exact noMatch_start mlenAkia _ (by decide) patternFactsAkia (k3Akia _ (by decide)) _

theorem noMatchPem_redact (s : List Char) : NoMatch mlenPem (redactList s) := by
  rw [redactList_eq]
  exact pem_A7 _ _ (Nat.le_refl _)

/-- A second pass of the pattern table over already-substituted text is the
identity: no pattern has a match left after the first pass. -/
theorem redactList_idem (s : List Char) : redactList (redactList s) = redactList s := by
  rw [redactList_eq (redactList s),
      subRun_id _ _ _ (noMatchB64_redact s),
      subRun_id _ _ _ (noMatchSk_redact s),
      subRun_id _ _ _ (noMatchGhp_redact s),
      subRun_id _ _ _ (noMatchGlpat_redact s),
      subRun_id _ _ _ (noMatchXox_redact s),
      subRun_id _ _ _ (noMatchAkia_redact s),
      subRun_id _ _ _ (noMatchPem_redact s)]

/-- C8: `redact_secrets` is idempotent — for every string `x`,
`redact_secrets (redact_secrets x) = redact_secrets x`; a second pass over
already-redacted text produces no change. -/
theorem c8_redact_secrets_idempotent (text : String) :
    redact_secrets (redact_secrets text) = redact_secrets text := by
  have he : redact_secrets "" = "" := rfl
  have hne : ∀ t : String, t ≠ "" → redact_secrets t = (redactList t.toList).asString := by
    intro t ht
    simp [redact_secrets, ht]
  by_cases h : text = ""
  · rw [h, he, he]
  · rw [hne text h]
    by_cases h2 : (redactList text.toList).asString = ""
    · rw [h2]
      exact he
    · rw [hne _ h2]
      rw [List.toList_asString, redactList_idem]

/-- C7 (counterexample): the text `sk-` followed by 48 alphanumerics is
matched first by the base64 pattern (the 48-character run is a base64 run
of length at least 40), so the key is replaced by the generic
`[REDACTED_TOKEN]`, not by the API-key token `[REDACTED_API_KEY]`: the
redacted output does not contain the API-key redaction token. -/
theorem c7_counterexample_sk_key_gets_generic_token :
    redact_secrets "sk-aaaaaaaaaaaaaaaaaaaaaaaaaaaaaaaaaaaaaaaaaaaaaaaa" =
      "sk-[REDACTED_TOKEN]" ∧
    containsSub "[REDACTED_API_KEY]".toList
      (redact_secrets "sk-aaaaaaaaaaaaaaaaaaaaaaaaaaaaaaaaaaaaaaaaaaaaaaaa").toList = false ∧
    containsSub "sk-aaaaaaaaaaaaaaaaaaaaaaaaaaaaaaaaaaaaaaaaaaaaaaaa".toList
      (redact_secrets "sk-aaaaaaaaaaaaaaaaaaaaaaaaaaaaaaaaaaaaaaaaaaaaaaaa").toList = false :=
  ⟨rfl, by decide, by decide⟩

/-- C7 (amended): every occurrence of `sk-` followed by 48 alphanumerics
is removed by `redact_secrets` — no such key ever survives in the output —
but the substituted token for a bare such key is the generic
`[REDACTED_TOKEN]` of the base64 pattern, which is applied first, not the
API-key token. -/
theorem c7_sk_key_never_survives_redaction :
    (∀ (x : String) (p : Nat), mlenSk (List.drop p (redact_secrets x).toList) = none) ∧
    redact_secrets "sk-aaaaaaaaaaaaaaaaaaaaaaaaaaaaaaaaaaaaaaaaaaaaaaaa" =
      "sk-[REDACTED_TOKEN]" := by
  constructor
  · intro x p
    by_cases hx : x = ""
    · subst hx
      have h0 : (redact_secrets "").toList = [] := rfl
      rw [h0]
      simp only [List.drop_nil]
      decide
    · have h1 : redact_secrets x = (redactList x.toList).asString := by
        simp [redact_secrets, hx]
      rw [h1, List.toList_asString]
      exact noMatchSk_redact _ p
  · rfl

/-! ## Facts about the session registry -/

theorem lookup_isSome_iff (l : List (String × α)) (k : String) :
    (l.lookup k).isSome = true ↔ k ∈ l.map Prod.fst := by
  induction l with
  | nil => simp [List.lookup]
  | cons q qs ih =>
    obtain ⟨a, b⟩ := q
    by_cases hak : k = a
    · subst hak
      simp [List.lookup]
    · have hbeq : (k == a) = false := by simp [hak]
      simp [List.lookup, hbeq, ih, hak]

theorem lookup_filter_none (p : String × α → Bool) (l : List (String × α)) (k : String)
    (h : l.lookup k = none) : (l.filter p).lookup k = none := by
  induction l with
  | nil => rfl
  | cons q qs ih =>
    obtain ⟨a, b⟩ := q
    by_cases hak : k = a
    · subst hak
      simp [List.lookup] at h
    · have hbeq : (k == a) = false := by simp [hak]
      have h2 : qs.lookup k = none := by simpa [List.lookup, hbeq] using h
      rw [List.filter_cons]
      by_cases hp : p (a, b) = true
      · rw [if_pos hp]
        simp [List.lookup, hbeq, ih h2]
      · rw [if_neg hp]
        exact ih h2

theorem lookup_assocErase_self (l : List (String × α)) (k : String) :
    (assocErase k l).lookup k = none := by
  induction l with
  | nil => rfl
  | cons q qs ih =>
    obtain ⟨a, b⟩ := q
    unfold assocErase at ih ⊢
    rw [List.filter_cons]
    by_cases hak : a = k
    · rw [if_neg (by simp [hak])]
      exact ih
    · rw [if_pos (by simp [hak])]
      have hbeq : (k == a) = false := by simp [Ne.symm hak]
      simp [List.lookup, hbeq, ih]

theorem assocErase_of_not_mem (l : List (String × α)) (k : String)
    (h : k ∉ l.map Prod.fst) : assocErase k l = l := by
  induction l with
  | nil => rfl
  | cons q qs ih =>
    obtain ⟨a, b⟩ := q
    simp only [List.map_cons, List.mem_cons] at h
    push_neg at h
    unfold assocErase at ih ⊢
    rw [List.filter_cons, if_pos (by simp [Ne.symm h.1])]
    rw [ih h.2]

theorem length_assocErase_add_one (l : List (String × α)) (k : String)
    (hnd : (l.map Prod.fst).Nodup) (hs : (l.lookup k).isSome = true) :
    (assocErase k l).length + 1 = l.length := by
  induction l with
  | nil => simp [List.lookup] at hs
  | cons q qs ih =>
    obtain ⟨a, b⟩ := q
    simp only [List.map_cons, List.nodup_cons] at hnd
    unfold assocErase at ih ⊢
    by_cases hak : a = k
    · subst hak
      rw [List.filter_cons, if_neg (by simp)]
      have he : assocErase a qs = qs := assocErase_of_not_mem qs a hnd.1
      unfold assocErase at he
      rw [he]
      simp
    · have hbeq : (k == a) = false := by simp [Ne.symm hak]
      have hs2 : (qs.lookup k).isSome = true := by simpa [List.lookup, hbeq] using hs
      rw [List.filter_cons, if_pos (by simp [hak])]
      have := ih hnd.2 hs2
      simp only [List.length_cons]
      omega

theorem lookup_append_of_none (l1 l2 : List (String × α)) (k : String)
    (h : l1.lookup k = none) : (l1 ++ l2).lookup k = l2.lookup k := by
  induction l1 with
  | nil => rfl
  | cons q qs ih =>
    obtain ⟨a, b⟩ := q
    by_cases hak : k = a
    · subst hak
      simp [List.lookup] at h
    · have hbeq : (k == a) = false := by simp [hak]
      have h2 : qs.lookup k = none := by simpa [List.lookup, hbeq] using h
      simp only [List.cons_append, List.lookup, hbeq]
      exact ih h2

theorem foldlMin_mem : ∀ (rest : List (String × Nat)) (kv : String × Nat),
    rest.foldl (fun best p => if p.2 < best.2 then p else best) kv ∈ kv :: rest := by
  intro rest
  induction rest with
  | nil =>
    intro kv
    simp
  | cons p ps ih =>
    intro kv
    rw [List.foldl_cons]
    rcases List.mem_cons.mp (ih (if p.2 < kv.2 then p else kv)) with heq | hm
    · rw [heq]
      by_cases hlt : p.2 < kv.2
      · simp [hlt]
      · simp [hlt]
    · simp [List.mem_cons, hm]

theorem foldlMin_le : ∀ (rest : List (String × Nat)) (kv : String × Nat) (q : String × Nat),
    q ∈ kv :: rest →
    (rest.foldl (fun best p => if p.2 < best.2 then p else best) kv).2 ≤ q.2 := by
  intro rest
  induction rest with
  | nil =>
    intro kv q hq
    simp only [List.mem_singleton] at hq
    subst hq
    simp
  | cons p ps ih =>
    intro kv q hq
    rw [List.foldl_cons]
    have hfle : (if p.2 < kv.2 then p else kv).2 ≤ kv.2 := by
      by_cases hlt : p.2 < kv.2
      · simp [hlt]
        omega
      · simp [hlt]
    have hfle2 : (if p.2 < kv.2 then p else kv).2 ≤ p.2 := by
      by_cases hlt : p.2 < kv.2
      · simp [hlt]
      · simp [hlt]
        omega
    have hhead := ih (if p.2 < kv.2 then p else kv) _ (List.mem_cons_self _ _)
    rcases List.mem_cons.mp hq with h1 | h2
    · rw [h1]
      exact le_trans hhead hfle
    · rcases List.mem_cons.mp h2 with h3 | h4
      · rw [h3]
        exact le_trans hhead hfle2
      · exact ih _ q (List.mem_cons.mpr (Or.inr h4))

theorem oldestSessionId_spec (times : List (String × Nat)) (h : times ≠ []) :
    ∃ old told, oldestSessionId times = some old ∧ (old, told) ∈ times ∧
      ∀ q ∈ times, told ≤ q.2 := by
  cases times with
  | nil => exact absurd rfl h
  | cons kv rest =>
    have hfold : oldestSessionId (kv :: rest) =
        some (rest.foldl (fun (best p : String × Nat) => if p.2 < best.2 then p else best) kv).1 :=
      rfl
    refine ⟨(rest.foldl (fun (best p : String × Nat) => if p.2 < best.2 then p else best) kv).1,
      (rest.foldl (fun (best p : String × Nat) => if p.2 < best.2 then p else best) kv).2,
      hfold, ?_, ?_⟩
    · have hm := foldlMin_mem rest kv
      simpa using hm
    · intro q hq
      exact foldlMin_le rest kv q hq

/-- C9: under the registry invariant, with a positive session cap, a
population within the cap and a fresh id, `create_session` succeeds; the
resulting population stays within the cap; the new session is registered
under its id; and when the population was exactly at the cap, the evicted
session is the one named by `oldestSessionId` — a session carrying the
minimal creation time over the whole registry (creation time, not least
recent use) — which is absent afterwards.  `remove_session` also keeps the
population within the cap. -/
theorem c9_session_registry_capacity (max_sessions now : Nat) (st : SessionManagerState)
    (sid host : String) (port : Nat) (username : String)
    (hwf : SMWF st) (hmax : 1 ≤ max_sessions)
    (hcnt : st.sessions.length ≤ max_sessions)
    (hfresh : st.sessions.lookup sid = none) :
    (∃ st2,
       create_session max_sessions now st sid host port username =
         CreateSessionOutcome.ok st2 (PySession.mk sid host port username false) ∧
       st2.sessions.length ≤ max_sessions ∧
       st2.sessions.lookup sid = some (PySession.mk sid host port username false) ∧
       (st.sessions.length = max_sessions →
         ∃ old told,
           oldestSessionId st.session_creation_times = some old ∧
           (old, told) ∈ st.session_creation_times ∧
           (∀ q ∈ st.session_creation_times, told ≤ q.2) ∧
           st2.sessions.lookup old = none)) ∧
    (∀ sid2, ((remove_session st sid2).2.sessions.length ≤ max_sessions)) := by
  constructor
  · by_cases hA : max_sessions ≤ st.sessions.length
    · have hEq : st.sessions.length = max_sessions := le_antisymm hcnt hA
      have hne : st.sessions ≠ [] := by
        intro hnil
        rw [hnil] at hEq
        simp at hEq
        omega
      have htimesne : st.session_creation_times ≠ [] := by
        intro hnil
        have h2 : st.sessions = [] := by
          have hk := hwf.1
          rw [hnil] at hk
          simpa using hk
        exact hne h2
      have hempty : st.sessions.isEmpty = false := by
        cases hs : st.sessions with
        | nil => exact absurd hs hne
        | cons a l => rfl
      obtain ⟨old, told, hold, hmem, hmin⟩ := oldestSessionId_spec _ htimesne
      have holdmem : old ∈ st.sessions.map Prod.fst := by
        rw [hwf.1]
        exact List.mem_map.mpr ⟨(old, told), hmem, rfl⟩
      have holdS : (st.sessions.lookup old).isSome = true :=
        (lookup_isSome_iff _ _).mpr holdmem
      have holdne : old ≠ sid := by
        intro he
        rw [he, hfresh] at holdS
        simp at holdS
      have hro : remove_oldest_session st =
          some ⟨assocErase old st.sessions, assocErase old st.session_creation_times⟩ := by
        unfold remove_oldest_session
        rw [if_neg (by simp [hempty]), hold]
        show some (remove_session st old).2 = _
        unfold remove_session
        rw [if_pos holdS]
      have hc : create_session max_sessions now st sid host port username =
          CreateSessionOutcome.ok
            ⟨assocErase old st.sessions ++ [(sid, PySession.mk sid host port username false)],
             assocErase old st.session_creation_times ++ [(sid, now)]⟩
            (PySession.mk sid host port username false) := by
        unfold create_session
        rw [if_neg (by simp [hfresh]), if_pos hA, hro]
      refine ⟨_, hc, ?_, ?_, ?_⟩
      · show (assocErase old st.sessions ++
            [(sid, PySession.mk sid host port username false)]).length ≤ max_sessions
        have hl := length_assocErase_add_one st.sessions old hwf.2 holdS
        simp only [List.length_append, List.length_singleton]
        omega
      · show (assocErase old st.sessions ++
            [(sid, PySession.mk sid host port username false)]).lookup sid =
            some (PySession.mk sid host port username false)
        have h1 : (assocErase old st.sessions).lookup sid = none :=
          lookup_filter_none _ _ _ hfresh
        rw [lookup_append_of_none _ _ _ h1]
        simp [List.lookup]
      · intro _
        refine ⟨old, told, hold, hmem, hmin, ?_⟩
        show (assocErase old st.sessions ++
            [(sid, PySession.mk sid host port username false)]).lookup old = none
        have h1 : (assocErase old st.sessions).lookup old = none :=
          lookup_assocErase_self _ _
        rw [lookup_append_of_none _ _ _ h1]
        have hbeq : (old == sid) = false := by simp [holdne]
        simp [List.lookup, hbeq]
    · have hc : create_session max_sessions now st sid host port username =
          CreateSessionOutcome.ok
            ⟨st.sessions ++ [(sid, PySession.mk sid host port username false)],
             st.session_creation_times ++ [(sid, now)]⟩
            (PySession.mk sid host port username false) := by
        unfold create_session
        rw [if_neg (by simp [hfresh]), if_neg hA]
      refine ⟨_, hc, ?_, ?_, ?_⟩
      · show (st.sessions ++
            [(sid, PySession.mk sid host port username false)]).length ≤ max_sessions
        simp only [List.length_append, List.length_singleton]
        omega
      · show (st.sessions ++
            [(sid, PySession.mk sid host port username false)]).lookup sid =
            some (PySession.mk sid host port username false)
        rw [lookup_append_of_none _ _ _ hfresh]
        simp [List.lookup]
      · intro hcap
        exact absurd hcap (by omega)
  · intro sid2
    unfold remove_session
    by_cases h : (st.sessions.lookup sid2).isSome = true
    · rw [if_pos h]
      exact le_trans (List.length_filter_le _ _) hcnt
    · rw [if_neg h]
      exact hcnt

/-- Witness for C9: with `max_sessions = 2` and sessions `s1` (created at
time 0) and `s2` (created at time 1) registered, creating `s3` evicts `s1`
(the earliest creation time) and leaves exactly `s2` and `s3`. -/
theorem c9_session_registry_capacity_witness :
    (SMWF (SessionManagerState.mk
        [("s1", PySession.mk "s1" "h1" 22 "u1" false),
         ("s2", PySession.mk "s2" "h2" 22 "u2" false)]
        [("s1", 0), ("s2", 1)]) ∧
     1 ≤ 2 ∧
     (SessionManagerState.mk
        [("s1", PySession.mk "s1" "h1" 22 "u1" false),
         ("s2", PySession.mk "s2" "h2" 22 "u2" false)]
        [("s1", 0), ("s2", 1)]).sessions.length ≤ 2 ∧
     (SessionManagerState.mk
        [("s1", PySession.mk "s1" "h1" 22 "u1" false),
         ("s2", PySession.mk "s2" "h2" 22 "u2" false)]
        [("s1", 0), ("s2", 1)]).sessions.lookup "s3" = none) ∧
    create_session 2 2 (SessionManagerState.mk
        [("s1", PySession.mk "s1" "h1" 22 "u1" false),
         ("s2", PySession.mk "s2" "h2" 22 "u2" false)]
        [("s1", 0), ("s2", 1)]) "s3" "h3" 22 "u3" =
      CreateSessionOutcome.ok (SessionManagerState.mk
        [("s2", PySession.mk "s2" "h2" 22 "u2" false),
         ("s3", PySession.mk "s3" "h3" 22 "u3" false)]
        [("s2", 1), ("s3", 2)]) (PySession.mk "s3" "h3" 22 "u3" false) ∧
    ((∃ st2,
       create_session 2 2 (SessionManagerState.mk
          [("s1", PySession.mk "s1" "h1" 22 "u1" false),
           ("s2", PySession.mk "s2" "h2" 22 "u2" false)]
          [("s1", 0), ("s2", 1)]) "s3" "h3" 22 "u3" =
         CreateSessionOutcome.ok st2 (PySession.mk "s3" "h3" 22 "u3" false) ∧
       st2.sessions.length ≤ 2 ∧
       st2.sessions.lookup "s3" = some (PySession.mk "s3" "h3" 22 "u3" false) ∧
       ((SessionManagerState.mk
          [("s1", PySession.mk "s1" "h1" 22 "u1" false),
           ("s2", PySession.mk "s2" "h2" 22 "u2" false)]
          [("s1", 0), ("s2", 1)]).sessions.length = 2 →
         ∃ old told,
           oldestSessionId (SessionManagerState.mk
              [("s1", PySession.mk "s1" "h1" 22 "u1" false),
               ("s2", PySession.mk "s2" "h2" 22 "u2" false)]
              [("s1", 0), ("s2", 1)]).session_creation_times = some old ∧
           (old, told) ∈ (SessionManagerState.mk
              [("s1", PySession.mk "s1" "h1" 22 "u1" false),
               ("s2", PySession.mk "s2" "h2" 22 "u2" false)]
              [("s1", 0), ("s2", 1)]).session_creation_times ∧
           (∀ q ∈ (SessionManagerState.mk
              [("s1", PySession.mk "s1" "h1" 22 "u1" false),
               ("s2", PySession.mk "s2" "h2" 22 "u2" false)]
              [("s1", 0), ("s2", 1)]).session_creation_times, told ≤ q.2) ∧
           st2.sessions.lookup old = none)) ∧
     (∀ sid2, ((remove_session (SessionManagerState.mk
          [("s1", PySession.mk "s1" "h1" 22 "u1" false),
           ("s2", PySession.mk "s2" "h2" 22 "u2" false)]
          [("s1", 0), ("s2", 1)]) sid2).2.sessions.length ≤ 2))) :=
  ⟨⟨by decide, by decide, by decide, by decide⟩, by decide,
   c9_session_registry_capacity 2 2 (SessionManagerState.mk
      [("s1", PySession.mk "s1" "h1" 22 "u1" false),
       ("s2", PySession.mk "s2" "h2" 22 "u2" false)]
      [("s1", 0), ("s2", 1)]) "s3" "h3" 22 "u3"
     (by decide) (by decide) (by decide) (by decide)⟩

theorem lookup_assocSet_self (l : List (String × α)) (k : String) (v : α)
    (h : (l.lookup k).isSome = true) : (assocSet k v l).lookup k = some v := by
  induction l with
  | nil => simp [List.lookup] at h
  | cons q qs ih =>
    obtain ⟨a, b⟩ := q
    unfold assocSet at ih ⊢
    by_cases hak : a = k
    · subst hak
      simp only [List.map_cons, if_pos rfl]
      simp [List.lookup]
    · have hbeq : (k == a) = false := by simp [Ne.symm hak]
      have h2 : (qs.lookup k).isSome = true := by simpa [List.lookup, hbeq] using h
      simp only [List.map_cons, if_neg hak]
      simp only [List.lookup, hbeq]
      exact ih h2

theorem provide_password_unresolved (st : PasswordServiceState) (rid pw : String)
    (h : st.response_callbacks.lookup rid = some FutureState.unresolved) :
    provide_password st rid pw =
      (true, ⟨st.pending_requests,
        assocSet rid (FutureState.resolved (some pw)) st.response_callbacks⟩) := by
  unfold provide_password
  rw [h]

theorem provide_password_resolved (st : PasswordServiceState) (rid pw : String)
    (v : Option String) (h : st.response_callbacks.lookup rid =
      some (FutureState.resolved v)) :
    provide_password st rid pw = (false, st) := by
  unfold provide_password
  rw [h]

theorem provide_password_missing (st : PasswordServiceState) (rid pw : String)
    (h : st.response_callbacks.lookup rid = none) :
    provide_password st rid pw = (false, st) := by
  unfold provide_password
  rw [h]

/-- C10: for a pending request id (an unresolved future is registered
under it), the first `provide_password` returns true and resolves the
future with the password, which the suspended `request_password` caller
then receives exactly once; a repeated `provide_password` returns false
and changes nothing; `provide_password` after the request completes
returns false; `cancel_request` on the pending id returns true and a
subsequent `provide_password` returns false. -/
theorem c10_provide_password_exactly_once (st : PasswordServiceState)
    (rid pw pw2 pw3 : String)
    (hpend : st.response_callbacks.lookup rid = some FutureState.unresolved) :
    (provide_password st rid pw).1 = true ∧
    (provide_password st rid pw).2.response_callbacks.lookup rid =
      some (FutureState.resolved (some pw)) ∧
    (request_password_finish (provide_password st rid pw).2 rid).1 = some pw ∧
    (provide_password (provide_password st rid pw).2 rid pw2).1 = false ∧
    (provide_password (provide_password st rid pw).2 rid pw2).2 =
      (provide_password st rid pw).2 ∧
    (provide_password (request_password_finish (provide_password st rid pw).2 rid).2
      rid pw2).1 = false ∧
    (cancel_request st rid).1 = true ∧
    (provide_password (cancel_request st rid).2 rid pw3).1 = false := by
  have hS : (st.response_callbacks.lookup rid).isSome = true := by
    rw [hpend]
    rfl
  have h1 := provide_password_unresolved st rid pw hpend
  have h2 : (provide_password st rid pw).2.response_callbacks.lookup rid =
      some (FutureState.resolved (some pw)) := by
    rw [h1]
    exact lookup_assocSet_self _ _ _ hS
  refine ⟨by rw [h1], h2, ?_, ?_, ?_, ?_, ?_, ?_⟩
  · unfold request_password_finish
    rw [h2]
  · rw [provide_password_resolved _ _ _ _ h2]
  · rw [provide_password_resolved _ _ _ _ h2]
  · have h3 : (request_password_finish (provide_password st rid pw).2
        rid).2.response_callbacks.lookup rid = none := by
      unfold request_password_finish
      exact lookup_assocErase_self _ _
    rw [provide_password_missing _ _ _ h3]
  · unfold cancel_request
    rw [hpend]
  · have hc : cancel_request st rid =
        (true, ⟨st.pending_requests,
          assocSet rid (FutureState.resolved none) st.response_callbacks⟩) := by
      unfold cancel_request
      rw [hpend]
    have h4 : (cancel_request st rid).2.response_callbacks.lookup rid =
        some (FutureState.resolved none) := by
      rw [hc]
      exact lookup_assocSet_self _ _ _ hS
    rw [provide_password_resolved _ _ _ _ h4]

/-- Witness for C10: a service with the single pending request `r1`
accepts the first password delivery, hands `secret` to the caller, and
rejects every later delivery for `r1`. -/
theorem c10_provide_password_exactly_once_witness :
    (PasswordServiceState.mk
        [("r1", PasswordRequest.mk "r1" "Password:" "sudo" "s1" "h1" "u1" "sudo ls" 0 60)]
        [("r1", FutureState.unresolved)]).response_callbacks.lookup "r1" =
      some FutureState.unresolved ∧
    ((provide_password (PasswordServiceState.mk
        [("r1", PasswordRequest.mk "r1" "Password:" "sudo" "s1" "h1" "u1" "sudo ls" 0 60)]
        [("r1", FutureState.unresolved)]) "r1" "secret").1 = true ∧
     (provide_password (PasswordServiceState.mk
        [("r1", PasswordRequest.mk "r1" "Password:" "sudo" "s1" "h1" "u1" "sudo ls" 0 60)]
        [("r1", FutureState.unresolved)]) "r1"
        "secret").2.response_callbacks.lookup "r1" =
       some (FutureState.resolved (some "secret")) ∧
     (request_password_finish (provide_password (PasswordServiceState.mk
        [("r1", PasswordRequest.mk "r1" "Password:" "sudo" "s1" "h1" "u1" "sudo ls" 0 60)]
        [("r1", FutureState.unresolved)]) "r1" "secret").2 "r1").1 = some "secret" ∧
     (provide_password (provide_password (PasswordServiceState.mk
        [("r1", PasswordRequest.mk "r1" "Password:" "sudo" "s1" "h1" "u1" "sudo ls" 0 60)]
        [("r1", FutureState.unresolved)]) "r1" "secret").2 "r1" "other").1 = false ∧
     (provide_password (provide_password (PasswordServiceState.mk
        [("r1", PasswordRequest.mk "r1" "Password:" "sudo" "s1" "h1" "u1" "sudo ls" 0 60)]
        [("r1", FutureState.unresolved)]) "r1" "secret").2 "r1" "other").2 =
       (provide_password (PasswordServiceState.mk
        [("r1", PasswordRequest.mk "r1" "Password:" "sudo" "s1" "h1" "u1" "sudo ls" 0 60)]
        [("r1", FutureState.unresolved)]) "r1" "secret").2 ∧
     (provide_password (request_password_finish (provide_password (PasswordServiceState.mk
        [("r1", PasswordRequest.mk "r1" "Password:" "sudo" "s1" "h1" "u1" "sudo ls" 0 60)]
        [("r1", FutureState.unresolved)]) "r1" "secret").2 "r1").2 "r1" "other").1 = false ∧
     (cancel_request (PasswordServiceState.mk
        [("r1", PasswordRequest.mk "r1" "Password:" "sudo" "s1" "h1" "u1" "sudo ls" 0 60)]
        [("r1", FutureState.unresolved)]) "r1").1 = true ∧
     (provide_password (cancel_request (PasswordServiceState.mk
        [("r1", PasswordRequest.mk "r1" "Password:" "sudo" "s1" "h1" "u1" "sudo ls" 0 60)]
        [("r1", FutureState.unresolved)]) "r1").2 "r1" "again").1 = false) :=
  ⟨by decide,
   c10_provide_password_exactly_once (PasswordServiceState.mk
      [("r1", PasswordRequest.mk "r1" "Password:" "sudo" "s1" "h1" "u1" "sudo ls" 0 60)]
      [("r1", FutureState.unresolved)]) "r1" "secret" "other" "again" (by decide)⟩
